import Mathlib

/-!
Verification of the XMR-elimination engine of slang-common.

The definitions below are a shallow embedding of the C++ sources under
src/XMREliminate: the name utilities and the change planner from
XMRChangeSet.cpp, the detector logic from XMRDetector.cpp, the pipeline
register generator and XMRInfo helpers from XMREliminate.cpp, and the
second rewriter pass from XMRRewriter.cpp.  C++ std::string becomes String,
std::vector becomes List, std::set becomes a List used only through
membership, std::map and std::unordered_map become association lists with
update-or-append insertion, and int becomes Int.
-/

/-! ## Name utilities (XMRChangeSet.cpp lines 49-96) -/

/-- The separator characters generatePortName collapses
(XMRChangeSet.cpp line 53). -/
def isSepChar (c : Char) : Bool :=
  c = '.' ∨ c = ' ' ∨ c = '\t' ∨ c = '\n'

/-- The character loop of generatePortName, carrying lastWasUnderscore
(XMRChangeSet.cpp lines 51-62). -/
def generatePortNameGo (lastWasUnderscore : Bool) : List Char → List Char
  | [] => []
  | c :: rest =>
    if isSepChar c then
      if lastWasUnderscore then generatePortNameGo true rest
      else '_' :: generatePortNameGo true rest
    else c :: generatePortNameGo false rest

/-- Embeds generatePortName: collapse runs of separator characters to a
single underscore, with the __xmr__ prefix (XMRChangeSet.cpp lines 49-64);
lastWasUnderscore starts true so leading separators produce nothing. -/
def generatePortName (fullPath : String) : String :=
  "__xmr__" ++ String.mk (generatePortNameGo true fullPath.toList)

/-- The character loop of extractBasePath, carrying bracketDepth
(XMRChangeSet.cpp lines 68-77). -/
def extractBasePathGo (bracketDepth : Int) : List Char → List Char
  | [] => []
  | c :: rest =>
    if c = '[' then extractBasePathGo (bracketDepth + 1) rest
    else if c = ']' then extractBasePathGo (bracketDepth - 1) rest
    else if bracketDepth = 0 then c :: extractBasePathGo bracketDepth rest
    else extractBasePathGo bracketDepth rest

/-- Embeds extractBasePath: keep characters at bracket depth zero, dropping
the brackets themselves (XMRChangeSet.cpp lines 66-79). -/
def extractBasePath (fullPath : String) : String :=
  String.mk (extractBasePathGo 0 fullPath.toList)

/-- The character loop of extractArraySuffix, carrying bracketDepth
(XMRChangeSet.cpp lines 83-94). -/
def extractArraySuffixGo (bracketDepth : Int) : List Char → List Char
  | [] => []
  | c :: rest =>
    if c = '[' then c :: extractArraySuffixGo (bracketDepth + 1) rest
    else if c = ']' then c :: extractArraySuffixGo (bracketDepth - 1) rest
    else if bracketDepth > 0 then c :: extractArraySuffixGo bracketDepth rest
    else extractArraySuffixGo bracketDepth rest

/-- Embeds extractArraySuffix: keep the brackets and every character at
positive bracket depth (XMRChangeSet.cpp lines 81-96). -/
def extractArraySuffix (fullPath : String) : String :=
  String.mk (extractArraySuffixGo 0 fullPath.toList)

/-! ## Public data types (XMREliminate.h) -/

/-- Embeds XMRInfo (XMREliminate.h lines 129-147); the opaque syntax-node
pointer is omitted because no modelled function reads it. -/
structure XMRInfo where
  sourceModule : String := ""
  targetModule : String := ""
  targetSignal : String := ""
  fullPath : String := ""
  pathSegments : List String := []
  isRead : Bool := false
  isWrite : Bool := false
  isUpwardReference : Bool := false
  upwardCount : Int := 0
  bitWidth : Int := 1
deriving DecidableEq, Repr

/-- Embeds XMRInfo::getUniqueId (XMREliminate.cpp line 129):
fmt::format with the two fields joined by an underscore. -/
def XMRInfo.getUniqueId (x : XMRInfo) : String :=
  x.sourceModule ++ "_" ++ x.fullPath

/-- Embeds PipeRegMode (XMREliminate.h lines 53-58). -/
inductive PipeRegMode where
  | None
  | Global
  | PerModule
  | Selective
deriving DecidableEq, Repr

/-- Embeds PipeRegEntry (XMREliminate.h lines 61-65). -/
structure PipeRegEntry where
  moduleName : String := ""
  regCount : Int := 0
  signals : List String := []
deriving DecidableEq, Repr

/-- Embeds XMRPipeRegConfig (XMREliminate.h lines 75-101). -/
structure XMRPipeRegConfig where
  mode : PipeRegMode := PipeRegMode.None
  globalRegCount : Int := 0
  entries : List PipeRegEntry := []
deriving DecidableEq, Repr

/-- Embeds XMRPipeRegConfig::isEnabled (XMREliminate.h line 81). -/
def XMRPipeRegConfig.isEnabled (c : XMRPipeRegConfig) : Bool :=
  c.mode ≠ PipeRegMode.None

/-- Embeds XMREliminateConfig (XMREliminate.h lines 106-124); driver options
and the check-output flag are omitted because the planner does not read them. -/
structure XMREliminateConfig where
  modules : List String := []
  topModule : String := ""
  pipeRegConfigMap : List (String × XMRPipeRegConfig) := []
  clockName : String := "clk"
  resetName : String := "rst_n"
  resetActiveLow : Bool := true
deriving DecidableEq, Repr

/-! ## ChangeSet data types (XMRTypes.h) -/

/-- Embeds PortChange (XMRTypes.h lines 25-31). -/
structure PortChange where
  moduleName : String := ""
  portName : String := ""
  direction : String := ""
  bitWidth : Int := 1
  signalToAssign : String := ""
deriving DecidableEq, Repr

/-- Embeds ConnectionChange (XMRTypes.h lines 34-40). -/
structure ConnectionChange where
  parentModule : String := ""
  instanceName : String := ""
  instanceModule : String := ""
  portName : String := ""
  signalName : String := ""
deriving DecidableEq, Repr

/-- Embeds WireDecl (XMRTypes.h lines 43-47). -/
structure WireDecl where
  moduleName : String := ""
  wireName : String := ""
  bitWidth : Int := 1
deriving DecidableEq, Repr

/-- Embeds PipeRegDecl (XMRTypes.h lines 50-59). -/
structure PipeRegDecl where
  moduleName : String := ""
  inputSignal : String := ""
  outputSignal : String := ""
  bitWidth : Int := 1
  regCount : Int := 0
  clockName : String := ""
  resetName : String := ""
  resetActiveLow : Bool := true
deriving DecidableEq, Repr

/-- Update-or-append insertion into an association list; the semantics of
assigning through std::map operator[] or std::unordered_map operator[]. -/
def assocSet {α β : Type} [DecidableEq α] (m : List (α × β)) (k : α) (v : β) : List (α × β) :=
  match m with
  | [] => [(k, v)]
  | (k1, v1) :: rest => if k1 = k then (k, v) :: rest else (k1, v1) :: assocSet rest k v

/-- Append one value to the vector stored under a key in a map of vectors;
the semantics of map[key].push_back(v). -/
def assocPush {α β : Type} [DecidableEq α] (m : List (α × List β)) (k : α) (v : β) : List (α × List β) :=
  match m with
  | [] => [(k, [v])]
  | (k1, vs) :: rest => if k1 = k then (k1, vs ++ [v]) :: rest else (k1, vs) :: assocPush rest k v

/-- Embeds XMRChangeSet (XMRTypes.h lines 62-71). -/
structure XMRChangeSet where
  portsToAdd : List (String × List PortChange) := []
  assignsToAdd : List (String × List String) := []
  wiresToAdd : List (String × List WireDecl) := []
  pipeRegsToAdd : List (String × List PipeRegDecl) := []
  connectionChanges : List ConnectionChange := []
  xmrReplacements : List ((String × String) × String) := []
deriving DecidableEq, Repr

/-! ## Instance tree and the AST visitors over it (XMRDetector.cpp lines 232-263)

The elaborated instance hierarchy is modelled as a tree of
(instance name, module definition name, children); the compilation root is a
list of top-level instances, matching slang's RootSymbol. -/

mutual
inductive Inst where
  | mk (name : String) (defName : String) (children : InstList)
inductive InstList where
  | nil
  | cons (head : Inst) (tail : InstList)
end

mutual
/-- Embeds InstanceMapper::handle (XMRDetector.cpp lines 232-245): record
(parentModule, instanceName) → definition name for every non-root instance,
in preorder, assigning through operator[]. -/
def instMapperGo (cur : String) (st : List ((String × String) × String)) : Inst → List ((String × String) × String)
  | .mk n d cs =>
    instMapperList d (if cur = "" then st else assocSet st (cur, n) d) cs

def instMapperList (cur : String) (st : List ((String × String) × String)) : InstList → List ((String × String) × String)
  | .nil => st
  | .cons c rest => instMapperList cur (instMapperGo cur st c) rest
end

/-- The instance map produced by visiting every top-level instance from the
compilation root with an InstanceMapper. -/
def instanceMapOf (roots : List Inst) : List ((String × String) × String) :=
  roots.foldl (instMapperGo "") []

mutual
/-- Embeds InstancePathFinder::handle (XMRDetector.cpp lines 253-263):
push the instance name, record the running path whenever the definition name
matches the target module, recurse, pop. -/
def pathFinderGo (target : String) (cur : List String) (acc : List (List String)) : Inst → List (List String)
  | .mk n d cs =>
    pathFinderList target (cur ++ [n]) (if d = target then acc ++ [cur ++ [n]] else acc) cs

def pathFinderList (target : String) (cur : List String) (acc : List (List String)) : InstList → List (List String)
  | .nil => acc
  | .cons c rest => pathFinderList target cur (pathFinderGo target cur acc c) rest
end

/-- Paths found by visiting every top-level instance with an
InstancePathFinder for the given target module. -/
def findInstancePaths (roots : List Inst) (target : String) : List (List String) :=
  roots.foldl (pathFinderGo target []) []

/-! ## std::map iteration order for the instance map

computeXMRChanges scans mapper.instanceMap with a range-for, which visits
entries in increasing key order; the keys are pairs of std::string compared
lexicographically.  The scan is modelled by sorting the association list by
key before searching it. -/

/-- Byte-wise character comparison, as std::char_traits does. -/
def charLt (a b : Char) : Bool := a.toNat < b.toNat

/-- Lexicographic string comparison, as std::string operator< does. -/
def strLt : List Char → List Char → Bool
  | [], [] => false
  | [], _ :: _ => true
  | _ :: _, [] => false
  | a :: as, b :: bs => charLt a b || (a = b && strLt as bs)

/-- Strict-weak-order comparison of std::map keys (pair of strings). -/
def instKeyLE (a b : (String × String) × String) : Bool :=
  if strLt a.1.1.toList b.1.1.toList then true
  else if strLt b.1.1.toList a.1.1.toList then false
  else if strLt a.1.2.toList b.1.2.toList then true
  else if strLt b.1.2.toList a.1.2.toList then false
  else true

def insertSortedEntry (e : (String × String) × String) : List ((String × String) × String) → List ((String × String) × String)
  | [] => [e]
  | f :: rest => if instKeyLE e f then e :: f :: rest else f :: insertSortedEntry e rest

/-- The instance map in std::map iteration order (sorted by key). -/
def sortInstEntries (l : List ((String × String) × String)) : List ((String × String) × String) :=
  l.foldr insertSortedEntry []

/-- Embeds the firstModuleDef scan of computeXMRChanges (XMRChangeSet.cpp
lines 169-179): the first entry, in std::map key order, whose instance name
equals the root path segment; the root segment itself when there is none or
when the mapped value is empty. -/
def resolveFirstModuleDef (instMap : List ((String × String) × String)) (rootModuleName : String) : String :=
  let found := (((sortInstEntries instMap).find? (fun e => e.1.2 = rootModuleName)).map (fun e => e.2)).getD ""
  if found = "" then rootModuleName else found

/-! ## The change planner (XMRChangeSet.cpp lines 102-466) -/

/-- push_back into changes.portsToAdd[k]. -/
def XMRChangeSet.pushPort (c : XMRChangeSet) (k : String) (p : PortChange) : XMRChangeSet :=
  { c with portsToAdd := assocPush c.portsToAdd k p }

/-- push_back into changes.wiresToAdd[k]. -/
def XMRChangeSet.pushWire (c : XMRChangeSet) (k : String) (w : WireDecl) : XMRChangeSet :=
  { c with wiresToAdd := assocPush c.wiresToAdd k w }

/-- push_back into changes.assignsToAdd[k]. -/
def XMRChangeSet.pushAssign (c : XMRChangeSet) (k : String) (a : String) : XMRChangeSet :=
  { c with assignsToAdd := assocPush c.assignsToAdd k a }

/-- push_back into changes.pipeRegsToAdd[k]. -/
def XMRChangeSet.pushPipeReg (c : XMRChangeSet) (k : String) (p : PipeRegDecl) : XMRChangeSet :=
  { c with pipeRegsToAdd := assocPush c.pipeRegsToAdd k p }

/-- push_back into changes.connectionChanges. -/
def XMRChangeSet.pushConn (c : XMRChangeSet) (cc : ConnectionChange) : XMRChangeSet :=
  { c with connectionChanges := c.connectionChanges ++ [cc] }

/-- State threaded through the planner loop: the accumulated changes, the
processedXMRs set, and the processedBasePaths set. -/
structure PlannerState where
  changes : XMRChangeSet := {}
  processedXMRs : List String := []
  processedBasePaths : List String := []
deriving DecidableEq, Repr

/-- One iteration of the upward trace loop (XMRChangeSet.cpp lines
226-253): look the hop up in the instance map, stopping on a miss, else
record a connection and an output port and descend. -/
def upwardTraceStep (instMap : List ((String × String) × String)) (xmr : XMRInfo)
    (portName : String) (acc : XMRChangeSet × String × Bool) (instName : String) :
    XMRChangeSet × String × Bool :=
  let ch := acc.1
  let currentModule := acc.2.1
  let broken := acc.2.2
  if broken then acc else
  match List.lookup (currentModule, instName) instMap with
  | none => (ch, currentModule, true)
  | some instModuleName =>
    let conn : ConnectionChange :=
      { parentModule := currentModule, instanceName := instName,
        instanceModule := instModuleName, portName := portName, signalName := portName }
    let outPort : PortChange :=
      { moduleName := instModuleName, portName := portName, direction := "output",
        bitWidth := xmr.bitWidth, signalToAssign := "" }
    ((ch.pushConn conn).pushPort instModuleName outPort, instModuleName, false)

/-- The source-instance wiring of the upward branch (XMRChangeSet.cpp lines
191-222): when the path finder returned something and the first path has at
least two elements, add the wire in firstModuleDef and the connection from
the path's last instance name. -/
def upwardSourcePathPart (xmr : XMRInfo) (portName firstModuleDef : String)
    (foundPaths : List (List String)) (changes : XMRChangeSet) : XMRChangeSet :=
  match foundPaths with
  | [] => changes
  | sourceInstPath :: _ =>
    if sourceInstPath.length ≥ 2 then
      let parentModuleName := firstModuleDef
      let sourceInstName := sourceInstPath.getLastD ""
      let wire : WireDecl :=
        { moduleName := parentModuleName, wireName := portName, bitWidth := xmr.bitWidth }
      let conn : ConnectionChange :=
        { parentModule := parentModuleName, instanceName := sourceInstName,
          instanceModule := xmr.sourceModule, portName := portName, signalName := portName }
      (changes.pushWire parentModuleName wire).pushConn conn
    else changes

/-- The target-module assign of the upward branch (XMRChangeSet.cpp lines
255-258). -/
def upwardAssignPart (xmr : XMRInfo) (portName : String) (changes : XMRChangeSet) : XMRChangeSet :=
  if xmr.targetModule ≠ "" then
    changes.pushAssign xmr.targetModule ("assign " ++ portName ++ " = " ++ xmr.targetSignal ++ ";")
  else changes

/-- Embeds the upward-reference branch of computeXMRChanges
(XMRChangeSet.cpp lines 162-261). -/
def processUpwardXMR (instMap : List ((String × String) × String)) (roots : List Inst)
    (xmr : XMRInfo) (portName : String) (changes : XMRChangeSet) : XMRChangeSet :=
  match xmr.pathSegments with
  | [] => changes
  | rootModuleName :: restSegs =>
    let firstModuleDef := resolveFirstModuleDef instMap rootModuleName
    let inPort : PortChange :=
      { moduleName := xmr.sourceModule, portName := portName, direction := "input",
        bitWidth := xmr.bitWidth, signalToAssign := "" }
    let changes := changes.pushPort xmr.sourceModule inPort
    let foundPaths := findInstancePaths roots xmr.sourceModule
    let changes := upwardSourcePathPart xmr portName firstModuleDef foundPaths changes
    let trace := restSegs.foldl (upwardTraceStep instMap xmr portName)
      (changes, firstModuleDef, false)
    upwardAssignPart xmr portName trace.1

/-- One iteration of the downward hierarchy walk (XMRChangeSet.cpp lines
281-312): look the hop up in the instance map, stopping on a miss, else
record a connection, a pass-through port on every hop but the last, and
descend. -/
def downwardWalkStep (instMap : List ((String × String) × String)) (xmr : XMRInfo)
    (portName : String) (segCount : Nat) (acc : XMRChangeSet × String × Bool)
    (iSeg : Nat × String) : XMRChangeSet × String × Bool :=
  let ch := acc.1
  let currentModule := acc.2.1
  let broken := acc.2.2
  if broken then acc else
  match List.lookup (currentModule, iSeg.2) instMap with
  | none => (ch, currentModule, true)
  | some instModuleName =>
    let conn : ConnectionChange :=
      { parentModule := currentModule, instanceName := iSeg.2,
        instanceModule := instModuleName, portName := portName, signalName := portName }
    let ch := ch.pushConn conn
    let passPort : PortChange :=
      { moduleName := instModuleName, portName := portName,
        direction := if xmr.isWrite then "input" else "output",
        bitWidth := xmr.bitWidth, signalToAssign := "" }
    let ch := if iSeg.1 < segCount - 1 then ch.pushPort instModuleName passPort else ch
    (ch, instModuleName, false)

/-- The target-module port and assign of the downward branch
(XMRChangeSet.cpp lines 321-352); the direct assign is skipped whenever
hasPipelineRegs is set. -/
def downwardTargetPart (xmr : XMRInfo) (portName : String) (hasPipelineRegs : Bool)
    (changes : XMRChangeSet) : XMRChangeSet :=
  if xmr.targetModule ≠ "" then
    if xmr.isWrite then
      let tgtPort : PortChange :=
        { moduleName := xmr.targetModule, portName := portName, direction := "input",
          bitWidth := xmr.bitWidth, signalToAssign := xmr.targetSignal }
      let changes := changes.pushPort xmr.targetModule tgtPort
      if !hasPipelineRegs then
        changes.pushAssign xmr.targetModule
          ("assign " ++ xmr.targetSignal ++ " = " ++ portName ++ ";")
      else changes
    else
      let tgtPort : PortChange :=
        { moduleName := xmr.targetModule, portName := portName, direction := "output",
          bitWidth := xmr.bitWidth, signalToAssign := xmr.targetSignal }
      let changes := changes.pushPort xmr.targetModule tgtPort
      if !hasPipelineRegs then
        changes.pushAssign xmr.targetModule
          ("assign " ++ portName ++ " = " ++ xmr.targetSignal ++ ";")
      else changes
  else changes

/-- The pipeline-register recording of the downward branch (XMRChangeSet.cpp
lines 354-414): Global with positive count, PerModule with the path length,
or Selective with the summed count of the matching entries. -/
def pipeRegPart (config : XMREliminateConfig) (xmr : XMRInfo) (portName : String)
    (pipeConfigIt : Option XMRPipeRegConfig) (changes : XMRChangeSet) : XMRChangeSet :=
  match pipeConfigIt with
  | none => changes
  | some pipeConfig =>
    if pipeConfig.mode = PipeRegMode.Global ∧ pipeConfig.globalRegCount > 0 then
      let pipeReg : PipeRegDecl :=
        { moduleName := xmr.targetModule, inputSignal := xmr.targetSignal,
          outputSignal := portName, bitWidth := xmr.bitWidth,
          regCount := pipeConfig.globalRegCount, clockName := config.clockName,
          resetName := config.resetName, resetActiveLow := config.resetActiveLow }
      changes.pushPipeReg xmr.targetModule pipeReg
    else if pipeConfig.mode = PipeRegMode.PerModule then
      let pipeReg : PipeRegDecl :=
        { moduleName := xmr.targetModule, inputSignal := xmr.targetSignal,
          outputSignal := portName, bitWidth := xmr.bitWidth,
          regCount := (xmr.pathSegments.length : Int), clockName := config.clockName,
          resetName := config.resetName, resetActiveLow := config.resetActiveLow }
      changes.pushPipeReg xmr.targetModule pipeReg
    else if pipeConfig.mode = PipeRegMode.Selective then
      let totalRegs := pipeConfig.entries.foldl
        (fun acc entry =>
          if entry.regCount ≤ 0 then acc
          else
            let matchesSignal := entry.signals = [] ∨
              entry.signals.any (fun sig => sig = portName ∨ sig = xmr.targetSignal)
            if matchesSignal then acc + entry.regCount else acc)
        (0 : Int)
      if totalRegs > 0 then
        let pipeReg : PipeRegDecl :=
          { moduleName := xmr.targetModule, inputSignal := xmr.targetSignal,
            outputSignal := portName, bitWidth := xmr.bitWidth,
            regCount := totalRegs, clockName := config.clockName,
            resetName := config.resetName, resetActiveLow := config.resetActiveLow }
        changes.pushPipeReg xmr.targetModule pipeReg
      else changes
    else changes

/-- Embeds the downward-reference branch of computeXMRChanges
(XMRChangeSet.cpp lines 263-414). -/
def processDownwardXMR (instMap : List ((String × String) × String))
    (config : XMREliminateConfig) (xmr : XMRInfo) (portName : String)
    (changes : XMRChangeSet) : XMRChangeSet :=
  let srcWire : WireDecl :=
    { moduleName := xmr.sourceModule, wireName := portName, bitWidth := xmr.bitWidth }
  let changes := changes.pushWire xmr.sourceModule srcWire
  let segCount := xmr.pathSegments.length
  let walk := xmr.pathSegments.enum.foldl (downwardWalkStep instMap xmr portName segCount)
    (changes, xmr.sourceModule, false)
  let pipeConfigIt := List.lookup xmr.sourceModule config.pipeRegConfigMap
  let hasPipelineRegs := match pipeConfigIt with
    | some pc => pc.isEnabled
    | none => false
  pipeRegPart config xmr portName pipeConfigIt
    (downwardTargetPart xmr portName hasPipelineRegs walk.1)

/-- Embeds one iteration of the main loop of computeXMRChanges
(XMRChangeSet.cpp lines 111-415). -/
def processOneXMR (instMap : List ((String × String) × String)) (roots : List Inst)
    (config : XMREliminateConfig) (st : PlannerState) (xmr : XMRInfo) : PlannerState :=
  let xmrKey := xmr.getUniqueId
  if xmrKey ∈ st.processedXMRs then st else
  let st1 : PlannerState := { st with processedXMRs := xmrKey :: st.processedXMRs }
  if xmr.pathSegments = [] then
    let reps := assocSet st1.changes.xmrReplacements (xmr.sourceModule, xmr.fullPath) xmr.targetSignal
    { st1 with changes := { st1.changes with xmrReplacements := reps } }
  else
  let basePath := extractBasePath xmr.fullPath
  let arraySuffix := extractArraySuffix xmr.fullPath
  let portName := generatePortName basePath
  let replacementName := if arraySuffix = "" then portName else portName ++ arraySuffix
  let reps := assocSet st1.changes.xmrReplacements (xmr.sourceModule, xmr.fullPath) replacementName
  let st2 : PlannerState := { st1 with changes := { st1.changes with xmrReplacements := reps } }
  let basePathKey := xmr.sourceModule ++ "::" ++ basePath
  if basePathKey ∈ st2.processedBasePaths then st2 else
  let st3 : PlannerState := { st2 with processedBasePaths := basePathKey :: st2.processedBasePaths }
  if xmr.pathSegments = [] then st3 else
  if xmr.isUpwardReference then
    { st3 with changes := processUpwardXMR instMap roots xmr portName st3.changes }
  else
    { st3 with changes := processDownwardXMR instMap config xmr portName st3.changes }

/-- The ChangeSet after Step B of the loop: the replacement text
portName ++ arraySuffix recorded under (sourceModule, fullPath)
(XMRChangeSet.cpp lines 139-143). -/
def replacementRecorded (st : PlannerState) (x : XMRInfo) : XMRChangeSet :=
  let portName := generatePortName (extractBasePath x.fullPath)
  let arraySuffix := extractArraySuffix x.fullPath
  let replacementName := if arraySuffix = "" then portName else portName ++ arraySuffix
  let reps := assocSet st.changes.xmrReplacements (x.sourceModule, x.fullPath) replacementName
  { st.changes with xmrReplacements := reps }

/-- First-occurrence filter on a string key; the semantics of the
seen.insert(key).second deduplication loops (XMRChangeSet.cpp lines 417-463). -/
def dedupBy {α : Type} (key : α → String) : List α → List String → List α
  | [], _ => []
  | x :: rest, seen =>
    if key x ∈ seen then dedupBy key rest seen
    else x :: dedupBy key rest (key x :: seen)

/-- Embeds the final deduplication phase of computeXMRChanges
(XMRChangeSet.cpp lines 417-463). -/
def finalizeChanges (c : XMRChangeSet) : XMRChangeSet :=
  { c with
    portsToAdd := c.portsToAdd.map (fun e => (e.1, dedupBy (fun p => p.portName ++ p.direction) e.2 [])),
    wiresToAdd := c.wiresToAdd.map (fun e => (e.1, dedupBy (fun w => w.wireName) e.2 [])),
    connectionChanges := dedupBy
      (fun cc => cc.parentModule ++ "." ++ cc.instanceName ++ "." ++ cc.portName)
      c.connectionChanges [],
    pipeRegsToAdd := c.pipeRegsToAdd.map (fun e => (e.1, dedupBy (fun p => p.outputSignal) e.2 [])) }

/-- Embeds computeXMRChanges (XMRChangeSet.cpp lines 102-466), with the
compilation replaced by the list of top-level instances it elaborates. -/
def computeXMRChanges (xmrInfos : List XMRInfo) (roots : List Inst)
    (config : XMREliminateConfig) : XMRChangeSet :=
  let instMap := instanceMapOf roots
  finalizeChanges (xmrInfos.foldl (processOneXMR instMap roots config) {}).changes

/-! ## Pipeline register generator (XMREliminate.cpp lines 244-286) -/

/-- The apostrophe character used by Verilog sized literals. -/
def tick : String := (Char.ofNat 39).toString

/-- Embeds generatePipelineRegisters (XMREliminate.cpp lines 244-286):
a pure string producer mirroring the stringstream appends one for one. -/
def generatePipelineRegisters (inputSignal outputSignal : String) (bitWidth regCount : Int)
    (clockName resetName : String) (resetActiveLow : Bool) : String :=
  if regCount ≤ 0 then "" else
  let widthSpec := if bitWidth > 1 then "[" ++ toString (bitWidth - 1) ++ ":0] " else ""
  let resetCond := if resetActiveLow then "!" ++ resetName else resetName
  let regBaseName := outputSignal
  let n := regCount.toNat
  let decls := String.join ((List.range n).map (fun i =>
    "    reg " ++ widthSpec ++ regBaseName ++ "_pipe_" ++ toString i ++ ";\n"))
  let alwaysLine := "    always @(posedge " ++ clockName ++ " or " ++
    (if resetActiveLow then "negedge" else "posedge") ++ " " ++ resetName ++ ") begin\n"
  let ifLine := "        if (" ++ resetCond ++ ") begin\n"
  let resets := String.join ((List.range n).map (fun i =>
    "            " ++ regBaseName ++ "_pipe_" ++ toString i ++ " <= " ++
      toString bitWidth ++ tick ++ "h0;\n"))
  let elseLine := "        end else begin\n"
  let stage0 := "            " ++ regBaseName ++ "_pipe_0 <= " ++ inputSignal ++ ";\n"
  let chain := String.join (((List.range n).drop 1).map (fun i =>
    "            " ++ regBaseName ++ "_pipe_" ++ toString i ++ " <= " ++
      regBaseName ++ "_pipe_" ++ toString (i - 1) ++ ";\n"))
  let assignLine := "    assign " ++ outputSignal ++ " = " ++ regBaseName ++ "_pipe_" ++
    toString (regCount - 1) ++ ";\n"
  decls ++ alwaysLine ++ ifLine ++ resets ++ elseLine ++ stage0 ++ chain ++
    "        end\n" ++ "    end\n" ++ assignLine

/-! ## Detector: read/write classification (XMRDetector.cpp lines 68-149)

The expressions the classifier inspects are modelled by a small expression
tree: hierarchical value expressions (identified by the syntax node they
point at), assignment expressions, subroutine calls carrying the formal
argument directions, and anything else. -/

/-- Embeds slang::ast::ArgumentDirection. -/
inductive ArgDir where
  | In
  | Out
  | InOut
  | Ref
deriving DecidableEq, Repr

mutual
inductive SExpr where
  | hier (id : Nat)
  | assign (lhs rhs : SExpr)
  | call (formals : List ArgDir) (args : SExprList)
  | lit
inductive SExprList where
  | nil
  | cons (head : SExpr) (tail : SExprList)
end

/-- Embeds the output-argument unwrapping (XMRDetector.cpp lines 93-99):
slang wraps an output actual in an AssignmentExpression whose left side is
the actual expression. -/
def unwrapActual : SExpr → SExpr
  | SExpr.assign l _ => l
  | e => e

/-- Embeds the argument scan of XMRDetector::handle(CallExpression)
(XMRDetector.cpp lines 85-108): for every position below both lengths whose
formal direction is Out or InOut, the unwrapped actual, when hierarchical,
contributes its syntax node to outputArgXMRs. -/
def callOutputArgIds : List ArgDir → SExprList → List Nat
  | _, SExprList.nil => []
  | [], SExprList.cons _ _ => []
  | d :: ds, SExprList.cons a rest =>
    (if d = ArgDir.Out ∨ d = ArgDir.InOut then
      match unwrapActual a with
      | SExpr.hier i => [i]
      | _ => []
     else []) ++ callOutputArgIds ds rest

mutual
/-- The outputArgXMRs set accumulated over a whole expression tree: every
call expression visited contributes the ids from its argument scan. -/
def collectOutputArgIds : SExpr → List Nat
  | SExpr.hier _ => []
  | SExpr.lit => []
  | SExpr.assign l r => collectOutputArgIds l ++ collectOutputArgIds r
  | SExpr.call fs as => callOutputArgIds fs as ++ collectOutputArgIdsList as

def collectOutputArgIdsList : SExprList → List Nat
  | SExprList.nil => []
  | SExprList.cons a rest => collectOutputArgIds a ++ collectOutputArgIdsList rest
end

mutual
/-- Every hierarchical value expression reachable in the tree, in visit
order; each one makes the detector emit an XMRInfo. -/
def hierOccurrences : SExpr → List Nat
  | SExpr.hier i => [i]
  | SExpr.lit => []
  | SExpr.assign l r => hierOccurrences l ++ hierOccurrences r
  | SExpr.call _ as => hierOccurrencesList as

def hierOccurrencesList : SExprList → List Nat
  | SExprList.nil => []
  | SExprList.cons a rest => hierOccurrences a ++ hierOccurrencesList rest
end

/-- Embeds the isRead/isWrite assignment of
XMRDetector::handle(HierarchicalValueExpression) (XMRDetector.cpp lines
143-149): (isRead, isWrite) from membership in outputArgXMRs. -/
def classifyXMRAccess (outIds : List Nat) (i : Nat) : Bool × Bool :=
  if i ∈ outIds then (false, true) else (true, false)

/-- One (syntax id, isRead, isWrite) triple per detected hierarchical value
expression of the tree, classified as the detector does. -/
def detectAccessFlags (root : SExpr) : List (Nat × Bool × Bool) :=
  (hierOccurrences root).map (fun i => (i, classifyXMRAccess (collectOutputArgIds root) i))

mutual
/-- Modelled from the spec: the reference "is the left-hand side of a
procedural or continuous assignment" — some assignment node of the tree has
exactly this hierarchical expression as its left-hand side. -/
def isAssignLhsOf (i : Nat) : SExpr → Bool
  | SExpr.hier _ => false
  | SExpr.lit => false
  | SExpr.assign l r =>
    (match l with
     | SExpr.hier j => j = i
     | _ => false) || isAssignLhsOf i l || isAssignLhsOf i r
  | SExpr.call _ as => isAssignLhsOfList i as

def isAssignLhsOfList (i : Nat) : SExprList → Bool
  | SExprList.nil => false
  | SExprList.cons a rest => isAssignLhsOf i a || isAssignLhsOfList i rest
end

/-- Modelled from the spec: one argument position of a single call binds the
reference (after unwrapping the implicit assignment wrapper) to a formal
whose direction is output or inout. -/
def callBindsOutputActual (i : Nat) : List ArgDir → SExprList → Bool
  | _, SExprList.nil => false
  | [], SExprList.cons _ _ => false
  | d :: ds, SExprList.cons a rest =>
    ((d = ArgDir.Out ∨ d = ArgDir.InOut) &&
      (match unwrapActual a with
       | SExpr.hier j => j = i
       | _ => false)) || callBindsOutputActual i ds rest

mutual
/-- Modelled from the spec: the reference "appears (after unwrapping the
elaborator's implicit assignment wrapper) as the actual argument of a
subroutine formal whose direction is output or inout" somewhere in the tree. -/
def isOutputActualOf (i : Nat) : SExpr → Bool
  | SExpr.hier _ => false
  | SExpr.lit => false
  | SExpr.assign l r => isOutputActualOf i l || isOutputActualOf i r
  | SExpr.call fs as => callBindsOutputActual i fs as || isOutputActualOfList i as

def isOutputActualOfList (i : Nat) : SExprList → Bool
  | SExprList.nil => false
  | SExprList.cons a rest => isOutputActualOf i a || isOutputActualOfList i rest
end

/-! ## Detector: path segments and target module (XMRDetector.cpp lines 151-218) -/

/-- The two symbol kinds the path walk distinguishes. -/
inductive PathElemKind where
  | Instance
  | Other
deriving DecidableEq, Repr

/-- One element of a HierarchicalReference path: its symbol kind, its symbol
name, and (for instances) the instance's definition name. -/
structure PathElem where
  kind : PathElemKind := PathElemKind.Other
  name : String := ""
  defName : String := ""
deriving DecidableEq, Repr

/-- Embeds the pathSegments construction of
XMRDetector::handle(HierarchicalValueExpression) (XMRDetector.cpp lines
158-185): keep instance symbols only, skipping a leading instance whose
name equals the enclosing instance's name while no segment has been kept. -/
def buildPathSegments (currentInstName : String) (path : List PathElem) : List String :=
  path.foldl
    (fun segs e =>
      if e.kind = PathElemKind.Instance then
        if segs = [] ∧ e.name = currentInstName then segs
        else segs ++ [e.name]
      else segs)
    []

/-- Embeds the targetModule computation (XMRDetector.cpp lines 201-218):
with nonempty segments, scan the path in reverse for the first instance
symbol not excluded by the self-reference guard and take its definition
name; with empty segments, the target module is the source module. -/
def detTargetModule (currentInstName sourceModule : String) (path : List PathElem) : String :=
  let segs := buildPathSegments currentInstName path
  if segs ≠ [] then
    match path.reverse.find? (fun e =>
      decide (e.kind = PathElemKind.Instance ∧ ¬(e.name = currentInstName ∧ segs = []))) with
    | some e => e.defName
    | none => ""
  else sourceModule

/-! ## Rewriter, pass 2 (XMRRewriter.cpp lines 209-267)

The syntax a second-pass rewriter touches is modelled by the module
declarations of one tree, each holding hierarchy instantiations, each
holding instance declarations with their port-connection lists. -/

structure InstDeclSyn where
  name : String := ""
  conns : List (String × String) := []
deriving DecidableEq, Repr

structure HierInstSyn where
  typeName : String := ""
  insts : List InstDeclSyn := []
deriving DecidableEq, Repr

structure ModuleDeclSyn where
  name : String := ""
  hinsts : List HierInstSyn := []
deriving DecidableEq, Repr

/-- The processedConnections key (XMRRewriter.cpp line 248). -/
def mkConnKey (parent instName port : String) : String :=
  parent ++ "." ++ instName ++ "." ++ port

/-- The connection changes grouped for one instance: entries whose parent
module and instance module match the context, then keyed by instance name
(XMRRewriter.cpp lines 220-225 and 239-241), preserving list order. -/
def groupFor (cs : List ConnectionChange) (parent typ instName : String) : List ConnectionChange :=
  (cs.filter (fun c => c.parentModule = parent && c.instanceModule = typ)).filter
    (fun c => c.instanceName = instName)

/-- Embeds the per-instance insertion loop (XMRRewriter.cpp lines 247-263):
each connection whose key is new is appended to the instance's connection
list and its key recorded; comma placement is a textual detail the syntax
model does not carry. -/
def applyConns (parent instName : String) :
    List ConnectionChange → List (String × String) → List String → List (String × String) × List String
  | [], conns, st => (conns, st)
  | c :: rest, conns, st =>
    if mkConnKey parent instName c.portName ∈ st then applyConns parent instName rest conns st
    else applyConns parent instName rest (conns ++ [(c.portName, c.signalName)])
      (mkConnKey parent instName c.portName :: st)

/-- The rewriter's walk over the instances of one instantiation. -/
def processInsts (cs : List ConnectionChange) (parent typ : String) (st : List String) :
    List InstDeclSyn → List InstDeclSyn × List String
  | [] => ([], st)
  | inst :: rest =>
    let r := applyConns parent inst.name (groupFor cs parent typ inst.name) inst.conns st
    let rr := processInsts cs parent typ r.2 rest
    ({ inst with conns := r.1 } :: rr.1, rr.2)

/-- Embeds XMRRewriterSecond::handle(HierarchyInstantiationSyntax) applied
to every instantiation of a module body in order. -/
def processHiers (cs : List ConnectionChange) (parent : String) (st : List String) :
    List HierInstSyn → List HierInstSyn × List String
  | [] => ([], st)
  | h :: rest =>
    let r := processInsts cs parent h.typeName st h.insts
    let rr := processHiers cs parent r.2 rest
    ({ h with insts := r.1 } :: rr.1, rr.2)

/-- Embeds one full traversal of a tree by an XMRRewriterSecond holding the
processedConnections state st: handle(ModuleDeclarationSyntax) sets the
current module name, then the instantiations inside are processed in order. -/
def xmrRewriterSecond (cs : List ConnectionChange) (st : List String) :
    List ModuleDeclSyn → List ModuleDeclSyn × List String
  | [] => ([], st)
  | m :: rest =>
    let r := processHiers cs m.name st m.hinsts
    let rr := xmrRewriterSecond cs r.2 rest
    ({ m with hinsts := r.1 } :: rr.1, rr.2)

/-! ## Spec-side definitions used to state the claims -/

/-- Modelled from the spec: "whitespace normalization inside brackets" —
delete space and tab characters that occur at bracket depth greater than
zero, leaving everything else untouched. -/
def normalizeBracketWsGo (depth : Int) : List Char → List Char
  | [] => []
  | c :: rest =>
    if c = '[' then c :: normalizeBracketWsGo (depth + 1) rest
    else if c = ']' then c :: normalizeBracketWsGo (depth - 1) rest
    else if depth > 0 ∧ (c = ' ' ∨ c = '\t') then normalizeBracketWsGo depth rest
    else c :: normalizeBracketWsGo depth rest

/-- Modelled from the spec: a text after whitespace normalization inside
brackets. -/
def normalizeBracketWs (text : String) : String :=
  String.mk (normalizeBracketWsGo 0 text.toList)

/-- The output format generatePipelineRegisters is specified to produce for
stages ≥ 1, line by line: the stage register declarations, the always block
with reset edge chosen by polarity, the reset branch clearing every stage,
the shift branch loading stage 0 from the input and stage i from stage i-1,
and the final continuous assignment from the last stage. -/
def pipelineSpecLines (inputSignal outputSignal : String) (bitWidth : Int) (stages : Nat)
    (clockName resetName : String) (resetActiveLow : Bool) : List String :=
  let widthSpec := if bitWidth > 1 then "[" ++ toString (bitWidth - 1) ++ ":0] " else ""
  ((List.range stages).map (fun i =>
      "    reg " ++ widthSpec ++ outputSignal ++ "_pipe_" ++ toString i ++ ";\n"))
  ++ ["    always @(posedge " ++ clockName ++ " or " ++
        (if resetActiveLow then "negedge" else "posedge") ++ " " ++ resetName ++ ") begin\n"]
  ++ ["        if (" ++ (if resetActiveLow then "!" ++ resetName else resetName) ++ ") begin\n"]
  ++ ((List.range stages).map (fun i =>
      "            " ++ outputSignal ++ "_pipe_" ++ toString i ++ " <= " ++
        toString bitWidth ++ tick ++ "h0;\n"))
  ++ ["        end else begin\n"]
  ++ ["            " ++ outputSignal ++ "_pipe_0 <= " ++ inputSignal ++ ";\n"]
  ++ ((List.range (stages - 1)).map (fun i =>
      "            " ++ outputSignal ++ "_pipe_" ++ toString (i + 1) ++ " <= " ++
        outputSignal ++ "_pipe_" ++ toString i ++ ";\n"))
  ++ ["        end\n", "    end\n"]
  ++ ["    assign " ++ outputSignal ++ " = " ++ outputSignal ++ "_pipe_" ++
        toString (stages - 1) ++ ";\n"]

/-! ## Concrete designs and inputs used by the verification -/

/-- An expression whose hierarchical reference 0 is the left-hand side of a
continuous assignment and appears in no subroutine call. -/
def assignLhsTree : SExpr := SExpr.assign (SExpr.hier 0) SExpr.lit

/-- A call binding hierarchical reference 3, wrapped in the elaborator's
implicit assignment, to an output formal. -/
def outputCallTree : SExpr :=
  SExpr.call [ArgDir.Out] (SExprList.cons (SExpr.assign (SExpr.hier 3) SExpr.lit) SExprList.nil)

/-- A resolver path for a reference from instance a1 of module A to a
signal of sibling instance a2, also of module A: top.a2.signal. -/
def siblingPath : List PathElem :=
  [{ kind := PathElemKind.Instance, name := "top", defName := "Top" },
   { kind := PathElemKind.Instance, name := "a2", defName := "A" }]

/-- A downward XMR from module A through an instance u_missing that the
instance map does not know. -/
def brokenHopXMR : XMRInfo :=
  { sourceModule := "A", targetModule := "T", targetSignal := "sig",
    fullPath := "u_missing.sig", pathSegments := ["u_missing"], isRead := true,
    isWrite := false, isUpwardReference := false, upwardCount := 0, bitWidth := 1 }

/-- A design in which module src instantiates module T as u_t. -/
def selRoots : List Inst :=
  [Inst.mk "src" "src" (InstList.cons (Inst.mk "u_t" "T" InstList.nil) InstList.nil)]

/-- A downward read XMR u_t.sig from module src into module T. -/
def selXMR : XMRInfo :=
  { sourceModule := "src", targetModule := "T", targetSignal := "sig",
    fullPath := "u_t.sig", pathSegments := ["u_t"], isRead := true,
    isWrite := false, isUpwardReference := false, upwardCount := 0, bitWidth := 1 }

/-- A Selective pipeline configuration for module src whose single entry
names only the signal other_sig, matching neither the generated port name
nor the target signal of selXMR. -/
def selCfg : XMREliminateConfig :=
  { modules := [], topModule := "",
    pipeRegConfigMap :=
      [("src", { mode := PipeRegMode.Selective, globalRegCount := 0,
                 entries := [{ moduleName := "T", regCount := 1, signals := ["other_sig"] }] })],
    clockName := "clk", resetName := "rst_n", resetActiveLow := true }

/-- A Global pipeline configuration for module src with zero stages. -/
def globalZeroCfg : XMREliminateConfig :=
  { modules := [], topModule := "",
    pipeRegConfigMap :=
      [("src", { mode := PipeRegMode.Global, globalRegCount := 0, entries := [] })],
    clockName := "clk", resetName := "rst_n", resetActiveLow := true }

/-- A design whose source module S sits two levels below the top: tb
instantiates w (module W), w instantiates u_src (module S), and tb also
instantiates u_t (module T). -/
def deepRoots : List Inst :=
  [Inst.mk "tb" "tb"
    (InstList.cons (Inst.mk "w" "W" (InstList.cons (Inst.mk "u_src" "S" InstList.nil) InstList.nil))
    (InstList.cons (Inst.mk "u_t" "T" InstList.nil) InstList.nil))]

/-- An upward XMR tb.u_t.sig referenced from module S (instantiated inside
module W, not directly under tb). -/
def deepUpXMR : XMRInfo :=
  { sourceModule := "S", targetModule := "T", targetSignal := "sig",
    fullPath := "tb.u_t.sig", pathSegments := ["tb", "u_t"], isRead := true,
    isWrite := false, isUpwardReference := true, upwardCount := 1, bitWidth := 1 }

/-- A design in which modules A and B each instantiate module T under the
same instance name u_t. -/
def twoParentRoots : List Inst :=
  [Inst.mk "top" "top"
    (InstList.cons (Inst.mk "a" "A" (InstList.cons (Inst.mk "u_t" "T" InstList.nil) InstList.nil))
    (InstList.cons (Inst.mk "b" "B" (InstList.cons (Inst.mk "u_t" "T" InstList.nil) InstList.nil))
      InstList.nil))]

/-- A read XMR u_t.sig from module A into module T. -/
def readPortXMR : XMRInfo :=
  { sourceModule := "A", targetModule := "T", targetSignal := "sig",
    fullPath := "u_t.sig", pathSegments := ["u_t"], isRead := true,
    isWrite := false, isUpwardReference := false, upwardCount := 0, bitWidth := 1 }

/-- A write XMR u_t.sig from module B into module T; it generates the same
port name in T as readPortXMR but with the opposite direction. -/
def writePortXMR : XMRInfo :=
  { sourceModule := "B", targetModule := "T", targetSignal := "sig",
    fullPath := "u_t.sig", pathSegments := ["u_t"], isRead := false,
    isWrite := true, isUpwardReference := false, upwardCount := 0, bitWidth := 1 }

/-- An XMRInfo whose unique id a_b_c collides with collidingXMR2's. -/
def collidingXMR1 : XMRInfo :=
  { sourceModule := "a_b", targetModule := "", targetSignal := "t1",
    fullPath := "c", pathSegments := [], isRead := true, isWrite := false,
    isUpwardReference := false, upwardCount := 0, bitWidth := 1 }

/-- An XMRInfo from a different source module with a different full path
whose unique id is also a_b_c. -/
def collidingXMR2 : XMRInfo :=
  { sourceModule := "a", targetModule := "", targetSignal := "t2",
    fullPath := "b_c", pathSegments := [], isRead := true, isWrite := false,
    isUpwardReference := false, upwardCount := 0, bitWidth := 1 }

/-- A one-module tree holding one instantiation of T named u with no
existing connections. -/
def pass2Tree : List ModuleDeclSyn :=
  [{ name := "m", hinsts := [{ typeName := "T", insts := [{ name := "u", conns := [] }] }] }]

/-- A single connection change for instance u of type T inside module m. -/
def pass2Conns : List ConnectionChange :=
  [{ parentModule := "m", instanceName := "u", instanceModule := "T",
     portName := "p", signalName := "s" }]

/-! ## Helper lemmas -/

theorem lookup_map_snd {β γ : Type} (f : β → γ) :
    ∀ (m : List (String × β)) (k : String),
      List.lookup k (m.map (fun e => (e.1, f e.2))) = (List.lookup k m).map f := by
  intro m
  induction m with
  | nil => intro k; simp [List.lookup]
  | cons e rest ih =>
    intro k
    obtain ⟨k1, v1⟩ := e
    simp only [List.map, List.lookup]
    cases hb : k == k1
    · simpa using ih k
    · simp

theorem dedupBy_pairwise_keys {α : Type} (key : α → String) :
    ∀ (l : List α) (seen : List String),
      (dedupBy key l seen).Pairwise (fun a b => key a ≠ key b) ∧
      ∀ a ∈ dedupBy key l seen, key a ∉ seen := by
  intro l
  induction l with
  | nil => intro seen; simp [dedupBy]
  | cons x rest ih =>
    intro seen
    by_cases h : key x ∈ seen
    · simpa [dedupBy, h] using ih seen
    · have h1 := ih (key x :: seen)
      refine ⟨?_, ?_⟩
      · simp only [dedupBy, if_neg h, List.pairwise_cons]
        refine ⟨fun b hb => ?_, h1.1⟩
        have := h1.2 b hb
        intro hkey
        exact this (by simp [← hkey])
      · intro a ha
        simp only [dedupBy, if_neg h, List.mem_cons] at ha
        rcases ha with rfl | ha
        · exact h
        · have := h1.2 a ha
          intro hmem
          exact this (List.mem_cons_of_mem _ hmem)

theorem lookup_assocSet {α β : Type} [DecidableEq α] [BEq α] [LawfulBEq α] :
    ∀ (m : List (α × β)) (k k' : α) (v : β),
      List.lookup k (assocSet m k' v) = if k = k' then some v else List.lookup k m := by
  intro m
  induction m with
  | nil =>
    intro k k' v
    simp only [assocSet, List.lookup]
    cases hb : k == k'
    · have hne : ¬k = k' := by intro hh; subst hh; simp at hb
      simp [hne]
    · have heq : k = k' := by simpa using hb
      simp [heq]
  | cons e rest ih =>
    intro k k' v
    obtain ⟨k1, v1⟩ := e
    by_cases h1 : k1 = k'
    · subst h1
      simp only [assocSet, if_pos rfl, List.lookup]
      cases hb : k == k1
      · have hne : ¬k = k1 := by intro hh; subst hh; simp at hb
        simp [hne]
      · have heq : k = k1 := by simpa using hb
        simp [heq]
    · simp only [assocSet, if_neg h1, List.lookup]
      cases hb : k == k1
      · exact ih k k' v
      · have heq : k = k1 := by simpa using hb
        subst heq
        simp [h1]

theorem assocPush_ne_nil {α β : Type} [DecidableEq α] (m : List (α × List β)) (k : α) (v : β) :
    assocPush m k v ≠ [] := by
  cases m with
  | nil => simp [assocPush]
  | cons e rest =>
    obtain ⟨k1, vs⟩ := e
    by_cases h : k1 = k <;> simp [assocPush, h]

/-! ## Claim theorems -/

/-- Claim C3 is right about the intended behavior and the code violates it:
with pipeline mode Selective and no matching entry (or Global with count
zero), the computed stage count is zero, yet the planner still suppresses the
direct assign because suppression keys on isEnabled() rather than on the
stage count; the target module is left with an output port that nothing
drives.  The last conjunct shows the assign the claim expects, produced once
the pipeline configuration is absent. -/
theorem selective_unmatched_pipeline_drops_assign :
    (computeXMRChanges [selXMR] selRoots selCfg).portsToAdd =
      [("T", [{ moduleName := "T", portName := "__xmr__u_t_sig", direction := "output",
                bitWidth := 1, signalToAssign := "sig" }])] ∧
    (computeXMRChanges [selXMR] selRoots selCfg).assignsToAdd = [] ∧
    (computeXMRChanges [selXMR] selRoots selCfg).pipeRegsToAdd = [] ∧
    (computeXMRChanges [selXMR] selRoots globalZeroCfg).assignsToAdd = [] ∧
    (computeXMRChanges [selXMR] selRoots globalZeroCfg).pipeRegsToAdd = [] ∧
    (computeXMRChanges [selXMR] selRoots { selCfg with pipeRegConfigMap := [] }).assignsToAdd =
      [("T", ["assign __xmr__u_t_sig = sig;"])] := by decide

/-- Claim C1 counterexample: a hierarchical reference that is the left-hand
side of a continuous assignment and appears in no subroutine call is
classified read (isRead true, isWrite false), although the claim requires
is_write for assignment left-hand sides. -/
theorem assignment_lhs_classified_as_read :
    detectAccessFlags assignLhsTree = [(0, true, false)] ∧
    isAssignLhsOf 0 assignLhsTree = true ∧
    isOutputActualOf 0 assignLhsTree = false := by decide

/-- Claim C2 counterexample: for a downward XMR whose single hop is missing
from the instance map, the planner still emits the source-module wire, the
target-module port, and the target-module assign for that XMR — routing for
the affected path is partial, not absent — and the ChangeSet carries no
error of any kind. -/
theorem missing_hop_partial_routing_cex :
    List.lookup ("A", "u_missing") (instanceMapOf []) = none ∧
    (computeXMRChanges [brokenHopXMR] [] {}).connectionChanges = [] ∧
    (computeXMRChanges [brokenHopXMR] [] {}).wiresToAdd =
      [("A", [{ moduleName := "A", wireName := "__xmr__u_missing_sig", bitWidth := 1 }])] ∧
    (computeXMRChanges [brokenHopXMR] [] {}).portsToAdd =
      [("T", [{ moduleName := "T", portName := "__xmr__u_missing_sig", direction := "output",
                bitWidth := 1, signalToAssign := "sig" }])] ∧
    (computeXMRChanges [brokenHopXMR] [] {}).assignsToAdd =
      [("T", ["assign __xmr__u_missing_sig = sig;"])] := by decide

/-- Claim C4 counterexample: the source module S is instantiated as u_src
inside module W (the immediate parent), but the planner adds the wire and
the source-instance connection in tb — the module resolved from the first
XMR path segment — and adds nothing to W. -/
theorem upward_wire_location_cex :
    List.lookup ("W", "u_src") (instanceMapOf deepRoots) = some "S" ∧
    findInstancePaths deepRoots "S" = [["tb", "w", "u_src"]] ∧
    List.lookup "W" (computeXMRChanges [deepUpXMR] deepRoots {}).wiresToAdd = none ∧
    List.lookup "tb" (computeXMRChanges [deepUpXMR] deepRoots {}).wiresToAdd =
      some [{ moduleName := "tb", wireName := "__xmr__tb_u_t_sig", bitWidth := 1 }] ∧
    (computeXMRChanges [deepUpXMR] deepRoots {}).connectionChanges.head? =
      some { parentModule := "tb", instanceName := "u_src", instanceModule := "S",
             portName := "__xmr__tb_u_t_sig", signalName := "__xmr__tb_u_t_sig" } := by decide

/-- Claim C5 counterexample: a read XMR from module A and a write XMR from
module B, both through an instance u_t of module T with the same path text,
leave two entries for the same (module, port name) pair in portsToAdd after
deduplication, because the deduplication key includes the direction. -/
theorem duplicate_port_name_cex :
    List.lookup "T" (computeXMRChanges [readPortXMR, writePortXMR] twoParentRoots {}).portsToAdd =
      some [{ moduleName := "T", portName := "__xmr__u_t_sig", direction := "output",
              bitWidth := 1, signalToAssign := "sig" },
            { moduleName := "T", portName := "__xmr__u_t_sig", direction := "input",
              bitWidth := 1, signalToAssign := "sig" }] := by decide

/-- Claim C6 counterexample: a reference from instance a1 of module A to
top.a2.signal, where a2 is a sibling instance of the same module A, has
nonempty path segments while its target module equals its source module, so
path_segments.empty() is not equivalent to source_module == target_module. -/
theorem selfref_iff_empty_segments_cex :
    buildPathSegments "a1" siblingPath = ["top", "a2"] ∧
    detTargetModule "a1" "A" siblingPath = "A" := by decide

/-- Claim C7 counterexample: getUniqueId joins the two fields with an
underscore, so the XMRInfos (source a_b, path c) and (source a, path b_c)
share the key a_b_c; the second is skipped although it differs from the
first in both source_module and full_path. -/
theorem uniqueId_collision_cex :
    computeXMRChanges [collidingXMR1, collidingXMR2] [] {} =
      computeXMRChanges [collidingXMR1] [] {} ∧
    collidingXMR1.sourceModule ≠ collidingXMR2.sourceModule ∧
    collidingXMR1.fullPath ≠ collidingXMR2.fullPath ∧
    collidingXMR1.getUniqueId = collidingXMR2.getUniqueId ∧
    collidingXMR1.getUniqueId = "a_b_c" := by decide

/-- Claim C8 counterexample: on a[0].b the concatenation of base path and
array suffix is a.b[0], which no whitespace normalization inside brackets
can make equal to the original text. -/
theorem base_suffix_not_normalized_cex :
    extractBasePath "a[0].b" ++ extractArraySuffix "a[0].b" = "a.b[0]" ∧
    normalizeBracketWs (extractBasePath "a[0].b" ++ extractArraySuffix "a[0].b") ≠
      normalizeBracketWs "a[0].b" := by decide

/-- Claim C10 counterexample: each rewrite invocation constructs a fresh
XMRRewriterSecond whose processedConnections set is empty, and applying the
pass twice that way appends the connection a second time; the tree is not a
fixed point of a fresh second application. -/
theorem pass2_fresh_rerun_cex :
    (xmrRewriterSecond pass2Conns [] (xmrRewriterSecond pass2Conns [] pass2Tree).1).1 ≠
      (xmrRewriterSecond pass2Conns [] pass2Tree).1 ∧
    (xmrRewriterSecond pass2Conns [] (xmrRewriterSecond pass2Conns [] pass2Tree).1).1 =
      [{ name := "m",
         hinsts := [{ typeName := "T",
                      insts := [{ name := "u", conns := [("p", "s"), ("p", "s")] }] }] }] := by
  decide

set_option maxRecDepth 4000 in
theorem mem_callOutputArgIds_iff (i : Nat) :
    ∀ (fs : List ArgDir) (as : SExprList),
      i ∈ callOutputArgIds fs as ↔ callBindsOutputActual i fs as = true
  | fs, SExprList.nil => by
    cases fs <;> simp [callOutputArgIds, callBindsOutputActual]
  | [], SExprList.cons a rest => by
    simp [callOutputArgIds, callBindsOutputActual]
  | d :: ds, SExprList.cons a rest => by
    have ih := mem_callOutputArgIds_iff i ds rest
    simp only [callOutputArgIds, callBindsOutputActual, List.mem_append, Bool.or_eq_true,
      Bool.and_eq_true, ih]
    by_cases hd : d = ArgDir.Out ∨ d = ArgDir.InOut
    · rw [if_pos hd, decide_eq_true hd]
      cases hu : unwrapActual a with
      | hier j =>
        simp
        exact or_congr_left eq_comm
      | assign l r => simp
      | call fs2 as2 => simp
      | lit => simp
    · rw [if_neg hd]
      have hdec : decide (d = ArgDir.Out ∨ d = ArgDir.InOut) = false := by
        simpa using hd
      rw [hdec]
      simp

mutual
theorem mem_collectOutputArgIds_iff (i : Nat) :
    ∀ (e : SExpr), i ∈ collectOutputArgIds e ↔ isOutputActualOf i e = true
  | SExpr.hier _ => by simp [collectOutputArgIds, isOutputActualOf]
  | SExpr.lit => by simp [collectOutputArgIds, isOutputActualOf]
  | SExpr.assign l r => by
    have hl := mem_collectOutputArgIds_iff i l
    have hr := mem_collectOutputArgIds_iff i r
    simp [collectOutputArgIds, isOutputActualOf, List.mem_append, hl, hr]
  | SExpr.call fs as => by
    have h1 := mem_callOutputArgIds_iff i fs as
    have h2 := mem_collectOutputArgIdsList_iff i as
    simp [collectOutputArgIds, isOutputActualOf, List.mem_append, h1, h2]

theorem mem_collectOutputArgIdsList_iff (i : Nat) :
    ∀ (as : SExprList), i ∈ collectOutputArgIdsList as ↔ isOutputActualOfList i as = true
  | SExprList.nil => by simp [collectOutputArgIdsList, isOutputActualOfList]
  | SExprList.cons a rest => by
    have ha := mem_collectOutputArgIds_iff i a
    have hrest := mem_collectOutputArgIdsList_iff i rest
    simp [collectOutputArgIdsList, isOutputActualOfList, List.mem_append, ha, hrest]
end

/-- Claim C1 (amended): for every access flag pair the detector computes,
is_write is true exactly when the reference appears, after unwrapping the
elaborator's implicit assignment wrapper, as the actual argument of a
subroutine formal whose direction is output or inout; is_read is the
negation of is_write, so the two are mutually exclusive.  A hierarchical
reference that is only the left-hand side of an assignment is classified as
a read, contrary to the original claim. -/
theorem isWrite_iff_output_actual (root : SExpr) (i : Nat) (r w : Bool)
    (h : (i, r, w) ∈ detectAccessFlags root) :
    (w = true ↔ isOutputActualOf i root = true) ∧ r = !w := by
  rcases List.mem_map.mp h with ⟨j, _, heq⟩
  injection heq with h1 h2
  subst h1
  by_cases hm : j ∈ collectOutputArgIds root
  · simp only [classifyXMRAccess, if_pos hm] at h2
    injection h2 with hr hw
    subst hr; subst hw
    exact ⟨by simpa using (mem_collectOutputArgIds_iff j root).mp hm, rfl⟩
  · simp only [classifyXMRAccess, if_neg hm] at h2
    injection h2 with hr hw
    subst hr; subst hw
    refine ⟨?_, rfl⟩
    constructor
    · intro hfalse; exact absurd hfalse (by simp)
    · intro hout
      exact absurd ((mem_collectOutputArgIds_iff j root).mpr hout) hm

/-- Witness for isWrite_iff_output_actual at the concrete call tree whose
output actual, wrapped in the implicit assignment, is reference 3. -/
theorem isWrite_iff_output_actual_witness :
    ((3, false, true) ∈ detectAccessFlags outputCallTree) ∧
    ((true = true ↔ isOutputActualOf 3 outputCallTree = true) ∧ false = !true) :=
  ⟨by decide, isWrite_iff_output_actual outputCallTree 3 false true (by decide)⟩

/-! ## Projection lemmas for the ChangeSet builders -/

@[simp] theorem pushPort_ports (c : XMRChangeSet) (k : String) (p : PortChange) :
    (c.pushPort k p).portsToAdd = assocPush c.portsToAdd k p := rfl
@[simp] theorem pushPort_assigns (c : XMRChangeSet) (k : String) (p : PortChange) :
    (c.pushPort k p).assignsToAdd = c.assignsToAdd := rfl
@[simp] theorem pushPort_wires (c : XMRChangeSet) (k : String) (p : PortChange) :
    (c.pushPort k p).wiresToAdd = c.wiresToAdd := rfl
@[simp] theorem pushPort_pipes (c : XMRChangeSet) (k : String) (p : PortChange) :
    (c.pushPort k p).pipeRegsToAdd = c.pipeRegsToAdd := rfl
@[simp] theorem pushPort_conns (c : XMRChangeSet) (k : String) (p : PortChange) :
    (c.pushPort k p).connectionChanges = c.connectionChanges := rfl
@[simp] theorem pushPort_reps (c : XMRChangeSet) (k : String) (p : PortChange) :
    (c.pushPort k p).xmrReplacements = c.xmrReplacements := rfl

@[simp] theorem pushWire_ports (c : XMRChangeSet) (k : String) (w : WireDecl) :
    (c.pushWire k w).portsToAdd = c.portsToAdd := rfl
@[simp] theorem pushWire_assigns (c : XMRChangeSet) (k : String) (w : WireDecl) :
    (c.pushWire k w).assignsToAdd = c.assignsToAdd := rfl
@[simp] theorem pushWire_wires (c : XMRChangeSet) (k : String) (w : WireDecl) :
    (c.pushWire k w).wiresToAdd = assocPush c.wiresToAdd k w := rfl
@[simp] theorem pushWire_pipes (c : XMRChangeSet) (k : String) (w : WireDecl) :
    (c.pushWire k w).pipeRegsToAdd = c.pipeRegsToAdd := rfl
@[simp] theorem pushWire_conns (c : XMRChangeSet) (k : String) (w : WireDecl) :
    (c.pushWire k w).connectionChanges = c.connectionChanges := rfl
@[simp] theorem pushWire_reps (c : XMRChangeSet) (k : String) (w : WireDecl) :
    (c.pushWire k w).xmrReplacements = c.xmrReplacements := rfl

@[simp] theorem pushAssign_ports (c : XMRChangeSet) (k a : String) :
    (c.pushAssign k a).portsToAdd = c.portsToAdd := rfl
@[simp] theorem pushAssign_assigns (c : XMRChangeSet) (k a : String) :
    (c.pushAssign k a).assignsToAdd = assocPush c.assignsToAdd k a := rfl
@[simp] theorem pushAssign_wires (c : XMRChangeSet) (k a : String) :
    (c.pushAssign k a).wiresToAdd = c.wiresToAdd := rfl
@[simp] theorem pushAssign_pipes (c : XMRChangeSet) (k a : String) :
    (c.pushAssign k a).pipeRegsToAdd = c.pipeRegsToAdd := rfl
@[simp] theorem pushAssign_conns (c : XMRChangeSet) (k a : String) :
    (c.pushAssign k a).connectionChanges = c.connectionChanges := rfl
@[simp] theorem pushAssign_reps (c : XMRChangeSet) (k a : String) :
    (c.pushAssign k a).xmrReplacements = c.xmrReplacements := rfl

@[simp] theorem pushPipeReg_ports (c : XMRChangeSet) (k : String) (p : PipeRegDecl) :
    (c.pushPipeReg k p).portsToAdd = c.portsToAdd := rfl
@[simp] theorem pushPipeReg_assigns (c : XMRChangeSet) (k : String) (p : PipeRegDecl) :
    (c.pushPipeReg k p).assignsToAdd = c.assignsToAdd := rfl
@[simp] theorem pushPipeReg_wires (c : XMRChangeSet) (k : String) (p : PipeRegDecl) :
    (c.pushPipeReg k p).wiresToAdd = c.wiresToAdd := rfl
@[simp] theorem pushPipeReg_pipes (c : XMRChangeSet) (k : String) (p : PipeRegDecl) :
    (c.pushPipeReg k p).pipeRegsToAdd = assocPush c.pipeRegsToAdd k p := rfl
@[simp] theorem pushPipeReg_conns (c : XMRChangeSet) (k : String) (p : PipeRegDecl) :
    (c.pushPipeReg k p).connectionChanges = c.connectionChanges := rfl
@[simp] theorem pushPipeReg_reps (c : XMRChangeSet) (k : String) (p : PipeRegDecl) :
    (c.pushPipeReg k p).xmrReplacements = c.xmrReplacements := rfl

@[simp] theorem pushConn_ports (c : XMRChangeSet) (cc : ConnectionChange) :
    (c.pushConn cc).portsToAdd = c.portsToAdd := rfl
@[simp] theorem pushConn_assigns (c : XMRChangeSet) (cc : ConnectionChange) :
    (c.pushConn cc).assignsToAdd = c.assignsToAdd := rfl
@[simp] theorem pushConn_wires (c : XMRChangeSet) (cc : ConnectionChange) :
    (c.pushConn cc).wiresToAdd = c.wiresToAdd := rfl
@[simp] theorem pushConn_pipes (c : XMRChangeSet) (cc : ConnectionChange) :
    (c.pushConn cc).pipeRegsToAdd = c.pipeRegsToAdd := rfl
@[simp] theorem pushConn_conns (c : XMRChangeSet) (cc : ConnectionChange) :
    (c.pushConn cc).connectionChanges = c.connectionChanges ++ [cc] := rfl
@[simp] theorem pushConn_reps (c : XMRChangeSet) (cc : ConnectionChange) :
    (c.pushConn cc).xmrReplacements = c.xmrReplacements := rfl

@[simp] theorem finalize_ports (c : XMRChangeSet) :
    (finalizeChanges c).portsToAdd =
      c.portsToAdd.map (fun e => (e.1, dedupBy (fun p => p.portName ++ p.direction) e.2 [])) := rfl
@[simp] theorem finalize_assigns (c : XMRChangeSet) :
    (finalizeChanges c).assignsToAdd = c.assignsToAdd := rfl
@[simp] theorem finalize_wires (c : XMRChangeSet) :
    (finalizeChanges c).wiresToAdd =
      c.wiresToAdd.map (fun e => (e.1, dedupBy (fun w => w.wireName) e.2 [])) := rfl
@[simp] theorem finalize_pipes (c : XMRChangeSet) :
    (finalizeChanges c).pipeRegsToAdd =
      c.pipeRegsToAdd.map (fun e => (e.1, dedupBy (fun p => p.outputSignal) e.2 [])) := rfl
@[simp] theorem finalize_conns (c : XMRChangeSet) :
    (finalizeChanges c).connectionChanges =
      dedupBy (fun cc => cc.parentModule ++ "." ++ cc.instanceName ++ "." ++ cc.portName)
        c.connectionChanges [] := rfl
@[simp] theorem finalize_reps (c : XMRChangeSet) :
    (finalizeChanges c).xmrReplacements = c.xmrReplacements := rfl

/-! ## Fold projection lemmas for the hierarchy walks -/

theorem upwardTraceStep_proj (im : List ((String × String) × String)) (xmr : XMRInfo)
    (pn : String) (acc : XMRChangeSet × String × Bool) (s : String) :
    ((upwardTraceStep im xmr pn acc s).1.wiresToAdd = acc.1.wiresToAdd) ∧
    ((upwardTraceStep im xmr pn acc s).1.assignsToAdd = acc.1.assignsToAdd) ∧
    ((upwardTraceStep im xmr pn acc s).1.pipeRegsToAdd = acc.1.pipeRegsToAdd) ∧
    ((upwardTraceStep im xmr pn acc s).1.xmrReplacements = acc.1.xmrReplacements) ∧
    (acc.1.portsToAdd ≠ [] → (upwardTraceStep im xmr pn acc s).1.portsToAdd ≠ []) ∧
    (∃ tl, (upwardTraceStep im xmr pn acc s).1.connectionChanges =
      acc.1.connectionChanges ++ tl) := by
  obtain ⟨ch, cur, broken⟩ := acc
  cases broken
  · unfold upwardTraceStep
    cases hl : List.lookup (cur, s) im
    · simp [hl]
    · simp [hl, assocPush_ne_nil]
  · unfold upwardTraceStep
    simp

theorem foldl_upwardTrace_proj (im : List ((String × String) × String)) (xmr : XMRInfo)
    (pn : String) :
    ∀ (l : List String) (acc : XMRChangeSet × String × Bool),
      ((l.foldl (upwardTraceStep im xmr pn) acc).1.wiresToAdd = acc.1.wiresToAdd) ∧
      ((l.foldl (upwardTraceStep im xmr pn) acc).1.assignsToAdd = acc.1.assignsToAdd) ∧
      ((l.foldl (upwardTraceStep im xmr pn) acc).1.pipeRegsToAdd = acc.1.pipeRegsToAdd) ∧
      ((l.foldl (upwardTraceStep im xmr pn) acc).1.xmrReplacements = acc.1.xmrReplacements) ∧
      (acc.1.portsToAdd ≠ [] → (l.foldl (upwardTraceStep im xmr pn) acc).1.portsToAdd ≠ []) ∧
      (∃ tl, (l.foldl (upwardTraceStep im xmr pn) acc).1.connectionChanges =
        acc.1.connectionChanges ++ tl) := by
  intro l
  induction l with
  | nil => intro acc; simp
  | cons s rest ih =>
    intro acc
    have hstep := upwardTraceStep_proj im xmr pn acc s
    have hrest := ih (upwardTraceStep im xmr pn acc s)
    simp only [List.foldl]
    refine ⟨?_, ?_, ?_, ?_, ?_, ?_⟩
    · rw [hrest.1, hstep.1]
    · rw [hrest.2.1, hstep.2.1]
    · rw [hrest.2.2.1, hstep.2.2.1]
    · rw [hrest.2.2.2.1, hstep.2.2.2.1]
    · intro h; exact hrest.2.2.2.2.1 (hstep.2.2.2.2.1 h)
    · obtain ⟨t1, h1⟩ := hstep.2.2.2.2.2
      obtain ⟨t2, h2⟩ := hrest.2.2.2.2.2
      exact ⟨t1 ++ t2, by rw [h2, h1, List.append_assoc]⟩

theorem downwardWalkStep_proj (im : List ((String × String) × String)) (xmr : XMRInfo)
    (pn : String) (n : Nat) (acc : XMRChangeSet × String × Bool) (iSeg : Nat × String) :
    ((downwardWalkStep im xmr pn n acc iSeg).1.wiresToAdd = acc.1.wiresToAdd) ∧
    ((downwardWalkStep im xmr pn n acc iSeg).1.assignsToAdd = acc.1.assignsToAdd) ∧
    ((downwardWalkStep im xmr pn n acc iSeg).1.pipeRegsToAdd = acc.1.pipeRegsToAdd) ∧
    ((downwardWalkStep im xmr pn n acc iSeg).1.xmrReplacements = acc.1.xmrReplacements) ∧
    (∃ tl, (downwardWalkStep im xmr pn n acc iSeg).1.connectionChanges =
      acc.1.connectionChanges ++ tl) := by
  obtain ⟨ch, cur, broken⟩ := acc
  cases broken
  · unfold downwardWalkStep
    cases hl : List.lookup (cur, iSeg.2) im
    · simp [hl]
    · by_cases hi : iSeg.1 < n - 1 <;> simp [hl, hi]
  · unfold downwardWalkStep
    simp

theorem foldl_downwardWalk_proj (im : List ((String × String) × String)) (xmr : XMRInfo)
    (pn : String) (n : Nat) :
    ∀ (l : List (Nat × String)) (acc : XMRChangeSet × String × Bool),
      ((l.foldl (downwardWalkStep im xmr pn n) acc).1.wiresToAdd = acc.1.wiresToAdd) ∧
      ((l.foldl (downwardWalkStep im xmr pn n) acc).1.assignsToAdd = acc.1.assignsToAdd) ∧
      ((l.foldl (downwardWalkStep im xmr pn n) acc).1.pipeRegsToAdd = acc.1.pipeRegsToAdd) ∧
      ((l.foldl (downwardWalkStep im xmr pn n) acc).1.xmrReplacements = acc.1.xmrReplacements) ∧
      (∃ tl, (l.foldl (downwardWalkStep im xmr pn n) acc).1.connectionChanges =
        acc.1.connectionChanges ++ tl) := by
  intro l
  induction l with
  | nil => intro acc; simp
  | cons s rest ih =>
    intro acc
    have hstep := downwardWalkStep_proj im xmr pn n acc s
    have hrest := ih (downwardWalkStep im xmr pn n acc s)
    simp only [List.foldl]
    refine ⟨?_, ?_, ?_, ?_, ?_⟩
    · rw [hrest.1, hstep.1]
    · rw [hrest.2.1, hstep.2.1]
    · rw [hrest.2.2.1, hstep.2.2.1]
    · rw [hrest.2.2.2.1, hstep.2.2.2.1]
    · obtain ⟨t1, h1⟩ := hstep.2.2.2.2
      obtain ⟨t2, h2⟩ := hrest.2.2.2.2
      exact ⟨t1 ++ t2, by rw [h2, h1, List.append_assoc]⟩

/-! ## Branch-part projection lemmas -/

theorem upwardSourcePathPart_proj (xmr : XMRInfo) (pn fmd : String)
    (fps : List (List String)) (c : XMRChangeSet) :
    ((upwardSourcePathPart xmr pn fmd fps c).portsToAdd = c.portsToAdd) ∧
    ((upwardSourcePathPart xmr pn fmd fps c).assignsToAdd = c.assignsToAdd) ∧
    ((upwardSourcePathPart xmr pn fmd fps c).pipeRegsToAdd = c.pipeRegsToAdd) ∧
    ((upwardSourcePathPart xmr pn fmd fps c).xmrReplacements = c.xmrReplacements) := by
  unfold upwardSourcePathPart
  cases fps with
  | nil => simp
  | cons p ps =>
    by_cases hl : p.length ≥ 2 <;> simp [hl]

theorem upwardAssignPart_proj (xmr : XMRInfo) (pn : String) (c : XMRChangeSet) :
    ((upwardAssignPart xmr pn c).portsToAdd = c.portsToAdd) ∧
    ((upwardAssignPart xmr pn c).wiresToAdd = c.wiresToAdd) ∧
    ((upwardAssignPart xmr pn c).pipeRegsToAdd = c.pipeRegsToAdd) ∧
    ((upwardAssignPart xmr pn c).xmrReplacements = c.xmrReplacements) ∧
    ((upwardAssignPart xmr pn c).connectionChanges = c.connectionChanges) := by
  unfold upwardAssignPart
  by_cases ht : xmr.targetModule ≠ "" <;> simp [ht]

theorem downwardTargetPart_proj (xmr : XMRInfo) (pn : String) (hp : Bool) (c : XMRChangeSet) :
    ((downwardTargetPart xmr pn hp c).wiresToAdd = c.wiresToAdd) ∧
    ((downwardTargetPart xmr pn hp c).pipeRegsToAdd = c.pipeRegsToAdd) ∧
    ((downwardTargetPart xmr pn hp c).xmrReplacements = c.xmrReplacements) ∧
    ((downwardTargetPart xmr pn hp c).connectionChanges = c.connectionChanges) := by
  unfold downwardTargetPart
  by_cases ht : xmr.targetModule ≠ "" <;>
    cases hw : xmr.isWrite <;>
      cases hp <;> simp [ht, hw]

theorem pipeRegPart_proj (config : XMREliminateConfig) (xmr : XMRInfo) (pn : String)
    (it : Option XMRPipeRegConfig) (c : XMRChangeSet) :
    ((pipeRegPart config xmr pn it c).portsToAdd = c.portsToAdd) ∧
    ((pipeRegPart config xmr pn it c).assignsToAdd = c.assignsToAdd) ∧
    ((pipeRegPart config xmr pn it c).wiresToAdd = c.wiresToAdd) ∧
    ((pipeRegPart config xmr pn it c).xmrReplacements = c.xmrReplacements) ∧
    ((pipeRegPart config xmr pn it c).connectionChanges = c.connectionChanges) := by
  unfold pipeRegPart
  cases it with
  | none => simp
  | some pc =>
    by_cases h1 : pc.mode = PipeRegMode.Global ∧ pc.globalRegCount > 0
    · simp [h1]
    · by_cases h2 : pc.mode = PipeRegMode.PerModule
      · simp [h1, h2]
      · by_cases h3 : pc.mode = PipeRegMode.Selective
        · simp only [if_neg h1, if_neg h2, if_pos h3]
          split <;> simp
        · simp [h1, h2, h3]

/-! ## Nonemptiness of the planner output per branch -/

theorem processUpwardXMR_ports_ne (im : List ((String × String) × String)) (roots : List Inst)
    (xmr : XMRInfo) (pn : String) (c : XMRChangeSet) (r : String) (rest : List String)
    (hseg : xmr.pathSegments = r :: rest) :
    (processUpwardXMR im roots xmr pn c).portsToAdd ≠ [] := by
  unfold processUpwardXMR
  rw [hseg]
  dsimp only
  rw [(upwardAssignPart_proj xmr pn _).1]
  apply (foldl_upwardTrace_proj im xmr pn rest _).2.2.2.2.1
  rw [(upwardSourcePathPart_proj xmr pn _ _ _).1]
  simp [assocPush_ne_nil]

theorem processDownwardXMR_wires_ne (im : List ((String × String) × String))
    (config : XMREliminateConfig) (xmr : XMRInfo) (pn : String) (c : XMRChangeSet) :
    (processDownwardXMR im config xmr pn c).wiresToAdd ≠ [] := by
  unfold processDownwardXMR
  dsimp only
  rw [(pipeRegPart_proj config xmr pn _ _).2.2.1]
  rw [(downwardTargetPart_proj xmr pn _ _).1]
  rw [(foldl_downwardWalk_proj im xmr pn _ _ _).1]
  simp [assocPush_ne_nil]

/-! ## The planner loop body at an unprocessed XMR with nonempty segments -/

theorem processOneXMR_changes_cons (im : List ((String × String) × String)) (roots : List Inst)
    (config : XMREliminateConfig) (st : PlannerState) (x : XMRInfo)
    (hkey : x.getUniqueId ∉ st.processedXMRs)
    (hseg : x.pathSegments ≠ [])
    (hbase : (x.sourceModule ++ "::" ++ extractBasePath x.fullPath) ∉ st.processedBasePaths) :
    (processOneXMR im roots config st x).changes =
      (if x.isUpwardReference then
        processUpwardXMR im roots x (generatePortName (extractBasePath x.fullPath))
          (replacementRecorded st x)
      else
        processDownwardXMR im config x (generatePortName (extractBasePath x.fullPath))
          (replacementRecorded st x)) := by
  unfold processOneXMR replacementRecorded
  rw [if_neg hkey]
  dsimp only
  rw [if_neg hseg, if_neg hbase, if_neg hseg]
  cases hup : x.isUpwardReference <;> simp [hup]

theorem computeXMRChanges_single (x : XMRInfo) (roots : List Inst)
    (config : XMREliminateConfig) :
    computeXMRChanges [x] roots config =
      finalizeChanges (processOneXMR (instanceMapOf roots) roots config {} x).changes := rfl

/-- Claim C6 (amended): empty path_segments still force target_module to
equal source_module, and the planner produces only the expression
substitution exactly when path_segments is empty; but the converse of the
detector invariant fails — a reference into a sibling instance of the same
module definition has nonempty path_segments with source_module equal to
target_module. -/
theorem selfref_amended :
    (∀ (cur src : String) (path : List PathElem),
        buildPathSegments cur path = [] → detTargetModule cur src path = src) ∧
    (∀ (x : XMRInfo) (roots : List Inst) (config : XMREliminateConfig),
        ((computeXMRChanges [x] roots config).portsToAdd = [] ∧
         (computeXMRChanges [x] roots config).wiresToAdd = [] ∧
         (computeXMRChanges [x] roots config).assignsToAdd = [] ∧
         (computeXMRChanges [x] roots config).pipeRegsToAdd = [] ∧
         (computeXMRChanges [x] roots config).connectionChanges = [] ∧
         (computeXMRChanges [x] roots config).xmrReplacements =
           [((x.sourceModule, x.fullPath), x.targetSignal)]) ↔
        x.pathSegments = []) := by
  constructor
  · intro cur src path h
    unfold detTargetModule
    simp [h]
  · intro x roots config
    constructor
    · rintro ⟨hports, hwires, -, -, -, -⟩
      by_contra hne
      have hkey : x.getUniqueId ∉ ({} : PlannerState).processedXMRs := by
        intro h; exact (List.not_mem_nil _) h
      have hbase : (x.sourceModule ++ "::" ++ extractBasePath x.fullPath) ∉
          ({} : PlannerState).processedBasePaths := by
        intro h; exact (List.not_mem_nil _) h
      have hchanges := processOneXMR_changes_cons (instanceMapOf roots) roots config {} x
        hkey hne hbase
      obtain ⟨s, rest, hseg⟩ := List.exists_cons_of_ne_nil hne
      cases hup : x.isUpwardReference
      · -- downward: wiresToAdd cannot be empty
        rw [computeXMRChanges_single, finalize_wires, hchanges, if_neg (by simp [hup])] at hwires
        have hnil := List.map_eq_nil_iff.mp hwires
        exact processDownwardXMR_wires_ne (instanceMapOf roots) config x
          (generatePortName (extractBasePath x.fullPath)) (replacementRecorded {} x) hnil
      · -- upward: portsToAdd cannot be empty
        rw [computeXMRChanges_single, finalize_ports, hchanges, if_pos (by simp [hup])] at hports
        have hnil := List.map_eq_nil_iff.mp hports
        exact processUpwardXMR_ports_ne (instanceMapOf roots) roots x
          (generatePortName (extractBasePath x.fullPath)) (replacementRecorded {} x) s rest hseg hnil
    · intro hseg
      refine ⟨?_, ?_, ?_, ?_, ?_, ?_⟩ <;>
        simp [computeXMRChanges, processOneXMR, hseg, assocSet, finalizeChanges, dedupBy]

/-- Witness for selfref_amended: a path with no elements keeps the target
module equal to the source module, and the planner output for an XMRInfo
with empty path segments is the lone substitution. -/
theorem selfref_amended_witness :
    detTargetModule "a1" "M" [] = "M" ∧
    ((computeXMRChanges [collidingXMR1] [] {}).portsToAdd = [] ∧
     (computeXMRChanges [collidingXMR1] [] {}).wiresToAdd = [] ∧
     (computeXMRChanges [collidingXMR1] [] {}).assignsToAdd = [] ∧
     (computeXMRChanges [collidingXMR1] [] {}).pipeRegsToAdd = [] ∧
     (computeXMRChanges [collidingXMR1] [] {}).connectionChanges = [] ∧
     (computeXMRChanges [collidingXMR1] [] {}).xmrReplacements = [(("a_b", "c"), "t1")]) := by
  have h := selfref_amended
  refine ⟨h.1 "a1" "M" [] (by decide), ?_⟩
  have h2 := (h.2 collidingXMR1 [] {}).mpr (by decide)
  simpa using h2

/-- Claim C2 (amended): when the single hop of a downward XMR is missing
from the instance map, the planner stops the hop walk there — no connection
change and no pass-through port is emitted — but it records no error (the
ChangeSet has no error channel at all), and the source-module wire, the
expression replacement, and the target-module port and direct assign for
that XMR are still emitted; subsequent XMRs in the input list are processed
as usual by the same loop. -/
theorem missing_hop_partial_routing (src tgt sg fp s : String) (w uc : Int)
    (roots : List Inst) (config : XMREliminateConfig)
    (hmap : List.lookup (src, s) (instanceMapOf roots) = none)
    (htgt : tgt ≠ "")
    (hcfg : List.lookup src config.pipeRegConfigMap = none) :
    computeXMRChanges
      [{ sourceModule := src, targetModule := tgt, targetSignal := sg, fullPath := fp,
         pathSegments := [s], isRead := true, isWrite := false, isUpwardReference := false,
         upwardCount := uc, bitWidth := w }] roots config =
    { portsToAdd :=
        [(tgt,
          [{ moduleName := tgt, portName := generatePortName (extractBasePath fp),
             direction := "output", bitWidth := w, signalToAssign := sg }])],
      assignsToAdd :=
        [(tgt, ["assign " ++ generatePortName (extractBasePath fp) ++ " = " ++ sg ++ ";"])],
      wiresToAdd :=
        [(src,
          [{ moduleName := src, wireName := generatePortName (extractBasePath fp),
             bitWidth := w }])],
      pipeRegsToAdd := [],
      connectionChanges := [],
      xmrReplacements :=
        [((src, fp),
          if extractArraySuffix fp = "" then generatePortName (extractBasePath fp)
          else generatePortName (extractBasePath fp) ++ extractArraySuffix fp)] } := by
  rw [computeXMRChanges_single]
  rw [processOneXMR_changes_cons _ _ _ _ _ (fun h => (List.not_mem_nil _) h) (by simp)
    (fun h => (List.not_mem_nil _) h)]
  rw [if_neg (by simp)]
  unfold processDownwardXMR downwardWalkStep downwardTargetPart pipeRegPart replacementRecorded
  simp [List.enum, List.enumFrom, hmap, hcfg, htgt, finalizeChanges, dedupBy, assocPush,
    assocSet, XMRChangeSet.pushWire, XMRChangeSet.pushPort, XMRChangeSet.pushAssign]

/-- Witness for missing_hop_partial_routing at the concrete broken-hop XMR
over an empty design. -/
theorem missing_hop_partial_routing_witness :
    List.lookup ("A", "u_missing") (instanceMapOf []) = none ∧
    computeXMRChanges [brokenHopXMR] [] {} =
      { portsToAdd :=
          [("T",
            [{ moduleName := "T", portName := generatePortName (extractBasePath "u_missing.sig"),
               direction := "output", bitWidth := 1, signalToAssign := "sig" }])],
        assignsToAdd :=
          [("T",
            ["assign " ++ generatePortName (extractBasePath "u_missing.sig") ++ " = " ++
              "sig" ++ ";"])],
        wiresToAdd :=
          [("A",
            [{ moduleName := "A", wireName := generatePortName (extractBasePath "u_missing.sig"),
               bitWidth := 1 }])],
        pipeRegsToAdd := [],
        connectionChanges := [],
        xmrReplacements :=
          [(("A", "u_missing.sig"),
            if extractArraySuffix "u_missing.sig" = "" then
              generatePortName (extractBasePath "u_missing.sig")
            else
              generatePortName (extractBasePath "u_missing.sig") ++
                extractArraySuffix "u_missing.sig")] } :=
  ⟨by decide,
   missing_hop_partial_routing "A" "T" "sig" "u_missing.sig" "u_missing" 1 0 [] {}
     (by decide) (by decide) (by decide)⟩

theorem dedupBy_cons_nil {α : Type} (key : α → String) (a : α) (l : List α) :
    dedupBy key (a :: l) [] = a :: dedupBy key l [key a] := by
  simp [dedupBy]

/-- Claim C4 (amended): for an upward XMR, when the path finder returns a
first root-to-source path of length at least two, the planner adds the wire
named port_name and the connection to the source instance's new input port
in the module definition resolved from the first XMR path segment via the
instance map (with fallback to the segment name itself), using the last
element of that first path as the instance name; this is the immediate
parent module of the source instance only in the special case where the
source instance sits directly under that resolved root. -/
theorem upward_changes_in_resolved_root (src tgt sg fp r : String) (rest : List String)
    (w uc : Int) (rd wr : Bool) (roots : List Inst) (config : XMREliminateConfig)
    (p : List String) (ps : List (List String))
    (hpaths : findInstancePaths roots src = p :: ps)
    (hlen : p.length ≥ 2) :
    List.lookup (resolveFirstModuleDef (instanceMapOf roots) r)
        (computeXMRChanges
          [{ sourceModule := src, targetModule := tgt, targetSignal := sg, fullPath := fp,
             pathSegments := r :: rest, isRead := rd, isWrite := wr, isUpwardReference := true,
             upwardCount := uc, bitWidth := w }] roots config).wiresToAdd =
      some [{ moduleName := resolveFirstModuleDef (instanceMapOf roots) r,
              wireName := generatePortName (extractBasePath fp), bitWidth := w }] ∧
    (computeXMRChanges
        [{ sourceModule := src, targetModule := tgt, targetSignal := sg, fullPath := fp,
           pathSegments := r :: rest, isRead := rd, isWrite := wr, isUpwardReference := true,
           upwardCount := uc, bitWidth := w }] roots config).connectionChanges.head? =
      some { parentModule := resolveFirstModuleDef (instanceMapOf roots) r,
             instanceName := p.getLastD "", instanceModule := src,
             portName := generatePortName (extractBasePath fp),
             signalName := generatePortName (extractBasePath fp) } := by
  have hbody := processOneXMR_changes_cons (instanceMapOf roots) roots config {}
    { sourceModule := src, targetModule := tgt, targetSignal := sg, fullPath := fp,
      pathSegments := r :: rest, isRead := rd, isWrite := wr, isUpwardReference := true,
      upwardCount := uc, bitWidth := w }
    (fun h => (List.not_mem_nil _) h) (by simp) (fun h => (List.not_mem_nil _) h)
  rw [if_pos (by simp)] at hbody
  constructor
  · rw [computeXMRChanges_single, finalize_wires, hbody]
    unfold processUpwardXMR
    dsimp only
    rw [hpaths]
    unfold upwardSourcePathPart
    dsimp only
    rw [if_pos hlen]
    rw [(upwardAssignPart_proj _ _ _).2.1]
    rw [(foldl_upwardTrace_proj _ _ _ rest _).1]
    simp [replacementRecorded, assocPush, dedupBy, List.lookup]
  · rw [computeXMRChanges_single, finalize_conns, hbody]
    unfold processUpwardXMR
    dsimp only
    rw [hpaths]
    unfold upwardSourcePathPart
    dsimp only
    rw [if_pos hlen]
    rw [(upwardAssignPart_proj _ _ _).2.2.2.2]
    obtain ⟨tl, htl⟩ := (foldl_upwardTrace_proj _ _ _ rest _).2.2.2.2.2
    rw [htl]
    simp [replacementRecorded, dedupBy_cons_nil]

/-- Witness for upward_changes_in_resolved_root on the deep design: the
wire for deepUpXMR lands in tb (resolved from the path root), with the
connection naming the path's last instance u_src. -/
theorem upward_changes_in_resolved_root_witness :
    findInstancePaths deepRoots "S" = ["tb", "w", "u_src"] :: [] ∧
    (List.lookup (resolveFirstModuleDef (instanceMapOf deepRoots) "tb")
        (computeXMRChanges [deepUpXMR] deepRoots {}).wiresToAdd =
      some [{ moduleName := resolveFirstModuleDef (instanceMapOf deepRoots) "tb",
              wireName := generatePortName (extractBasePath "tb.u_t.sig"), bitWidth := 1 }] ∧
    (computeXMRChanges [deepUpXMR] deepRoots {}).connectionChanges.head? =
      some { parentModule := resolveFirstModuleDef (instanceMapOf deepRoots) "tb",
             instanceName := (["tb", "w", "u_src"] : List String).getLastD "",
             instanceModule := "S",
             portName := generatePortName (extractBasePath "tb.u_t.sig"),
             signalName := generatePortName (extractBasePath "tb.u_t.sig") }) :=
  ⟨by decide,
   upward_changes_in_resolved_root "S" "T" "sig" "tb.u_t.sig" "tb" ["u_t"] 1 1 true false
     deepRoots {} ["tb", "w", "u_src"] [] (by decide) (by decide)⟩

theorem computeXMRChanges_def (xs : List XMRInfo) (roots : List Inst)
    (config : XMREliminateConfig) :
    computeXMRChanges xs roots config =
      finalizeChanges
        ((xs.foldl (processOneXMR (instanceMapOf roots) roots config) {})).changes := rfl

/-- Claim C5 (amended): in every ChangeSet the planner produces, each module
has at most one entry in portsToAdd per (port name, direction) pair — the
deduplication key is the port name concatenated with the direction, so the
same port name may legitimately appear once as input and once as output. -/
theorem ports_unique_per_name_and_direction (xmrs : List XMRInfo) (roots : List Inst)
    (config : XMREliminateConfig) (m : String) (l : List PortChange)
    (h : List.lookup m (computeXMRChanges xmrs roots config).portsToAdd = some l) :
    l.Pairwise (fun p q => ¬(p.portName = q.portName ∧ p.direction = q.direction)) := by
  rw [computeXMRChanges_def, finalize_ports,
    lookup_map_snd (fun v => dedupBy (fun p : PortChange => p.portName ++ p.direction) v [])] at h
  rcases ho : List.lookup m
      ((xmrs.foldl (processOneXMR (instanceMapOf roots) roots config) {})).changes.portsToAdd
    with _ | v
  · rw [ho] at h
    exact Option.noConfusion h
  · rw [ho] at h
    have h2 : dedupBy (fun p : PortChange => p.portName ++ p.direction) v [] = l :=
      Option.some.inj h
    subst h2
    have hp := (dedupBy_pairwise_keys (fun p : PortChange => p.portName ++ p.direction) v []).1
    refine hp.imp ?_
    intro a b hab hcontra
    exact hab (by rw [hcontra.1, hcontra.2])

/-- Witness for ports_unique_per_name_and_direction on the design where the
same port name reaches module T once as an output and once as an input. -/
theorem ports_unique_per_name_and_direction_witness :
    (List.lookup "T"
        (computeXMRChanges [readPortXMR, writePortXMR] twoParentRoots {}).portsToAdd =
      some [{ moduleName := "T", portName := "__xmr__u_t_sig", direction := "output",
              bitWidth := 1, signalToAssign := "sig" },
            { moduleName := "T", portName := "__xmr__u_t_sig", direction := "input",
              bitWidth := 1, signalToAssign := "sig" }]) ∧
    List.Pairwise (fun p q : PortChange => ¬(p.portName = q.portName ∧ p.direction = q.direction))
      [{ moduleName := "T", portName := "__xmr__u_t_sig", direction := "output",
         bitWidth := 1, signalToAssign := "sig" },
       { moduleName := "T", portName := "__xmr__u_t_sig", direction := "input",
         bitWidth := 1, signalToAssign := "sig" }] :=
  ⟨by decide,
   ports_unique_per_name_and_direction [readPortXMR, writePortXMR] twoParentRoots {} "T"
     [{ moduleName := "T", portName := "__xmr__u_t_sig", direction := "output",
        bitWidth := 1, signalToAssign := "sig" },
      { moduleName := "T", portName := "__xmr__u_t_sig", direction := "input",
        bitWidth := 1, signalToAssign := "sig" }] (by decide)⟩

theorem processUpwardXMR_reps (im : List ((String × String) × String)) (roots : List Inst)
    (xmr : XMRInfo) (pn : String) (c : XMRChangeSet) :
    (processUpwardXMR im roots xmr pn c).xmrReplacements = c.xmrReplacements := by
  unfold processUpwardXMR
  cases hseg : xmr.pathSegments with
  | nil => rfl
  | cons r rest =>
    dsimp only
    rw [(upwardAssignPart_proj _ _ _).2.2.2.1]
    rw [(foldl_upwardTrace_proj _ _ _ rest _).2.2.2.1]
    rw [(upwardSourcePathPart_proj _ _ _ _ _).2.2.2]
    simp

theorem processDownwardXMR_reps (im : List ((String × String) × String))
    (config : XMREliminateConfig) (xmr : XMRInfo) (pn : String) (c : XMRChangeSet) :
    (processDownwardXMR im config xmr pn c).xmrReplacements = c.xmrReplacements := by
  unfold processDownwardXMR
  dsimp only
  rw [(pipeRegPart_proj _ _ _ _ _).2.2.2.1]
  rw [(downwardTargetPart_proj _ _ _ _).2.2.1]
  rw [(foldl_downwardWalk_proj _ _ _ _ _ _).2.2.2.1]
  simp

theorem processOneXMR_skip (im : List ((String × String) × String)) (roots : List Inst)
    (config : XMREliminateConfig) (st : PlannerState) (x : XMRInfo)
    (h : x.getUniqueId ∈ st.processedXMRs) :
    processOneXMR im roots config st x = st := by
  unfold processOneXMR
  rw [if_pos h]

theorem processOneXMR_processedXMRs (im : List ((String × String) × String)) (roots : List Inst)
    (config : XMREliminateConfig) (st : PlannerState) (x : XMRInfo) :
    (processOneXMR im roots config st x).processedXMRs =
      if x.getUniqueId ∈ st.processedXMRs then st.processedXMRs
      else x.getUniqueId :: st.processedXMRs := by
  unfold processOneXMR
  by_cases h1 : x.getUniqueId ∈ st.processedXMRs
  · rw [if_pos h1, if_pos h1]
  · rw [if_neg h1, if_neg h1]
    dsimp only
    by_cases h2 : x.pathSegments = []
    · simp [h2]
    · rw [if_neg h2]
      by_cases h3 : (x.sourceModule ++ "::" ++ extractBasePath x.fullPath) ∈ st.processedBasePaths
      · rw [if_pos h3]
      · rw [if_neg h3]
        rw [if_neg h2]
        cases hup : x.isUpwardReference <;> simp [hup]

theorem foldl_processedXMRs_mem (im : List ((String × String) × String)) (roots : List Inst)
    (config : XMREliminateConfig) :
    ∀ (xs : List XMRInfo) (st : PlannerState) (k : String),
      k ∈ (xs.foldl (processOneXMR im roots config) st).processedXMRs ↔
        k ∈ st.processedXMRs ∨ ∃ y ∈ xs, y.getUniqueId = k := by
  intro xs
  induction xs with
  | nil => intro st k; simp
  | cons x rest ih =>
    intro st k
    simp only [List.foldl]
    rw [ih]
    rw [processOneXMR_processedXMRs]
    by_cases h : x.getUniqueId ∈ st.processedXMRs
    · rw [if_pos h]
      constructor
      · rintro (hk | ⟨y, hy, hyk⟩)
        · exact Or.inl hk
        · exact Or.inr ⟨y, List.mem_cons_of_mem _ hy, hyk⟩
      · rintro (hk | ⟨y, hy, hyk⟩)
        · exact Or.inl hk
        · rcases List.mem_cons.mp hy with rfl | hy2
          · exact Or.inl (hyk ▸ h)
          · exact Or.inr ⟨y, hy2, hyk⟩
    · rw [if_neg h]
      constructor
      · rintro (hk | ⟨y, hy, hyk⟩)
        · rcases List.mem_cons.mp hk with rfl | hk2
          · exact Or.inr ⟨x, List.mem_cons_self _ _, rfl⟩
          · exact Or.inl hk2
        · exact Or.inr ⟨y, List.mem_cons_of_mem _ hy, hyk⟩
      · rintro (hk | ⟨y, hy, hyk⟩)
        · exact Or.inl (List.mem_cons_of_mem _ hk)
        · rcases List.mem_cons.mp hy with rfl | hy2
          · exact Or.inl (hyk ▸ List.mem_cons_self _ _)
          · exact Or.inr ⟨y, hy2, hyk⟩

theorem processOneXMR_reps_other (im : List ((String × String) × String)) (roots : List Inst)
    (config : XMREliminateConfig) (st : PlannerState) (x : XMRInfo) (k : String × String)
    (hk : k ≠ (x.sourceModule, x.fullPath)) :
    List.lookup k (processOneXMR im roots config st x).changes.xmrReplacements =
      List.lookup k st.changes.xmrReplacements := by
  unfold processOneXMR
  by_cases h1 : x.getUniqueId ∈ st.processedXMRs
  · rw [if_pos h1]
  · rw [if_neg h1]
    dsimp only
    by_cases h2 : x.pathSegments = []
    · rw [if_pos h2]
      dsimp only
      rw [lookup_assocSet, if_neg hk]
    · rw [if_neg h2]
      by_cases h3 : (x.sourceModule ++ "::" ++ extractBasePath x.fullPath) ∈ st.processedBasePaths
      · rw [if_pos h3]
        dsimp only
        rw [lookup_assocSet, if_neg hk]
      · rw [if_neg h3]
        rw [if_neg h2]
        cases hup : x.isUpwardReference
        · rw [if_neg (by simp [hup])]
          dsimp only
          rw [processDownwardXMR_reps]
          dsimp only
          rw [lookup_assocSet, if_neg hk]
        · rw [if_pos (by simp [hup])]
          dsimp only
          rw [processUpwardXMR_reps]
          dsimp only
          rw [lookup_assocSet, if_neg hk]

theorem processOneXMR_reps_self (im : List ((String × String) × String)) (roots : List Inst)
    (config : XMREliminateConfig) (st : PlannerState) (x : XMRInfo)
    (h : x.getUniqueId ∉ st.processedXMRs) :
    (List.lookup (x.sourceModule, x.fullPath)
      (processOneXMR im roots config st x).changes.xmrReplacements).isSome := by
  unfold processOneXMR
  rw [if_neg h]
  dsimp only
  by_cases h2 : x.pathSegments = []
  · rw [if_pos h2]
    dsimp only
    rw [lookup_assocSet, if_pos rfl]
    rfl
  · rw [if_neg h2]
    by_cases h3 : (x.sourceModule ++ "::" ++ extractBasePath x.fullPath) ∈ st.processedBasePaths
    · rw [if_pos h3]
      dsimp only
      rw [lookup_assocSet, if_pos rfl]
      rfl
    · rw [if_neg h3]
      rw [if_neg h2]
      cases hup : x.isUpwardReference
      · rw [if_neg (by simp [hup])]
        dsimp only
        rw [processDownwardXMR_reps]
        dsimp only
        rw [lookup_assocSet, if_pos rfl]
        rfl
      · rw [if_pos (by simp [hup])]
        dsimp only
        rw [processUpwardXMR_reps]
        dsimp only
        rw [lookup_assocSet, if_pos rfl]
        rfl

theorem foldl_reps_other (im : List ((String × String) × String)) (roots : List Inst)
    (config : XMREliminateConfig) :
    ∀ (xs : List XMRInfo) (st : PlannerState) (k : String × String),
      (∀ y ∈ xs, (y.sourceModule, y.fullPath) ≠ k) →
      List.lookup k (xs.foldl (processOneXMR im roots config) st).changes.xmrReplacements =
        List.lookup k st.changes.xmrReplacements := by
  intro xs
  induction xs with
  | nil => intro st k _; rfl
  | cons x rest ih =>
    intro st k hall
    simp only [List.foldl]
    rw [ih _ _ (fun y hy => hall y (List.mem_cons_of_mem _ hy))]
    exact processOneXMR_reps_other im roots config st x k
      (fun hh => hall x (List.mem_cons_self _ _) hh.symm)

/-- Claim C7 (amended): getUniqueId joins source_module and full_path with
an underscore, and the planner skips an XMRInfo exactly when an earlier one
in input order produced the same key string (first occurrence wins).
Because the separator is an underscore — a character legal in both fields —
two XMRInfos differing in source_module and full_path can share a key and
be merged, as (a_b, c) and (a, b_c) are. -/
theorem xmr_skipped_iff_duplicate_key (xs : List XMRInfo) (x : XMRInfo) (roots : List Inst)
    (config : XMREliminateConfig) :
    computeXMRChanges (xs ++ [x]) roots config = computeXMRChanges xs roots config ↔
      ∃ y ∈ xs, y.getUniqueId = x.getUniqueId := by
  constructor
  · intro heq
    by_contra hno
    push_neg at hno
    have hmem : x.getUniqueId ∉
        ((xs.foldl (processOneXMR (instanceMapOf roots) roots config) {})).processedXMRs := by
      rw [foldl_processedXMRs_mem]
      rintro (hk | ⟨y, hy, hyk⟩)
      · exact (List.not_mem_nil _) hk
      · exact hno y hy hyk
    have hsome := processOneXMR_reps_self (instanceMapOf roots) roots config
      (xs.foldl (processOneXMR (instanceMapOf roots) roots config) {}) x hmem
    have hnone : List.lookup (x.sourceModule, x.fullPath)
        ((xs.foldl (processOneXMR (instanceMapOf roots) roots config)
          {})).changes.xmrReplacements = none := by
      rw [foldl_reps_other]
      · rfl
      · intro y hy hpair
        apply hno y hy
        have h1 : y.sourceModule = x.sourceModule := congrArg Prod.fst hpair
        have h2 : y.fullPath = x.fullPath := congrArg Prod.snd hpair
        unfold XMRInfo.getUniqueId
        rw [h1, h2]
    have hL : (List.lookup (x.sourceModule, x.fullPath)
        (computeXMRChanges (xs ++ [x]) roots config).xmrReplacements).isSome := by
      rw [computeXMRChanges_def, finalize_reps, List.foldl_append]
      exact hsome
    rw [heq, computeXMRChanges_def, finalize_reps, hnone] at hL
    exact Bool.noConfusion hL
  · rintro ⟨y, hy, hyk⟩
    have hskip : (xs ++ [x]).foldl (processOneXMR (instanceMapOf roots) roots config) {} =
        xs.foldl (processOneXMR (instanceMapOf roots) roots config) {} := by
      rw [List.foldl_append]
      apply processOneXMR_skip
      rw [foldl_processedXMRs_mem]
      exact Or.inr ⟨y, hy, hyk⟩
    rw [computeXMRChanges_def, computeXMRChanges_def, hskip]

theorem baseGo_append_free (cs : List Char) (h : ∀ c ∈ cs, c ≠ '[' ∧ c ≠ ']')
    (rest : List Char) :
    extractBasePathGo 0 (cs ++ rest) = cs ++ extractBasePathGo 0 rest := by
  induction cs with
  | nil => simp
  | cons c cs ih =>
    have hc := h c (List.mem_cons_self _ _)
    have ih2 := ih (fun d hd => h d (List.mem_cons_of_mem _ hd))
    simp [extractBasePathGo, hc.1, hc.2, ih2]

theorem suffixGo_append_free (cs : List Char) (h : ∀ c ∈ cs, c ≠ '[' ∧ c ≠ ']')
    (rest : List Char) :
    extractArraySuffixGo 0 (cs ++ rest) = extractArraySuffixGo 0 rest := by
  induction cs with
  | nil => simp
  | cons c cs ih =>
    have hc := h c (List.mem_cons_self _ _)
    have ih2 := ih (fun d hd => h d (List.mem_cons_of_mem _ hd))
    simp [extractArraySuffixGo, hc.1, hc.2, ih2]

theorem baseGo_group (b : List Char) (hb : ∀ c ∈ b, c ≠ '[' ∧ c ≠ ']') (rest : List Char) :
    extractBasePathGo 1 (b ++ (']' :: rest)) = extractBasePathGo 0 rest := by
  induction b with
  | nil => simp [extractBasePathGo]
  | cons c bs ih =>
    have hc := hb c (List.mem_cons_self _ _)
    have ih2 := ih (fun d hd => hb d (List.mem_cons_of_mem _ hd))
    simp [extractBasePathGo, hc.1, hc.2, ih2]

theorem suffixGo_group (b : List Char) (hb : ∀ c ∈ b, c ≠ '[' ∧ c ≠ ']') (rest : List Char) :
    extractArraySuffixGo 1 (b ++ (']' :: rest)) = b ++ (']' :: extractArraySuffixGo 0 rest) := by
  induction b with
  | nil => simp [extractArraySuffixGo]
  | cons c bs ih =>
    have hc := hb c (List.mem_cons_self _ _)
    have ih2 := ih (fun d hd => hb d (List.mem_cons_of_mem _ hd))
    simp [extractArraySuffixGo, hc.1, hc.2, ih2]

theorem extractGo_flatten_groups (bodies : List (List Char))
    (hb : ∀ b ∈ bodies, ∀ c ∈ b, c ≠ '[' ∧ c ≠ ']') :
    extractBasePathGo 0 ((bodies.map (fun b => '[' :: (b ++ [']']))).flatten) = [] ∧
    extractArraySuffixGo 0 ((bodies.map (fun b => '[' :: (b ++ [']']))).flatten) =
      (bodies.map (fun b => '[' :: (b ++ [']']))).flatten := by
  induction bodies with
  | nil => constructor <;> rfl
  | cons b bs ih =>
    have hbb := hb b (List.mem_cons_self _ _)
    have ih2 := ih (fun d hd => hb d (List.mem_cons_of_mem _ hd))
    have hshape : ('[' :: (b ++ [']'])) ++ (bs.map (fun b => '[' :: (b ++ [']']))).flatten =
        '[' :: (b ++ (']' :: (bs.map (fun b => '[' :: (b ++ [']']))).flatten)) := by
      simp
    constructor
    · simp only [List.map_cons, List.flatten_cons, hshape]
      simp [extractBasePathGo, baseGo_group b hbb, ih2.1]
    · simp only [List.map_cons, List.flatten_cons, hshape]
      simp [extractArraySuffixGo, suffixGo_group b hbb, ih2.2]

/-- Claim C8 (amended): extractBasePath collects the characters outside
bracket groups and extractArraySuffix the bracket groups themselves, so
their concatenation equals the original text exactly when the bracket
groups form a trailing run — a bracket-free stem followed by zero or more
[body] groups, as in u_sub.data[3][15].  When a character follows a bracket
group (as in a[0].b) the concatenation reorders the text and no whitespace
normalization inside brackets reconciles the two. -/
theorem base_suffix_concat_trailing (stem : List Char) (bodies : List (List Char))
    (hstem : ∀ c ∈ stem, c ≠ '[' ∧ c ≠ ']')
    (hbodies : ∀ b ∈ bodies, ∀ c ∈ b, c ≠ '[' ∧ c ≠ ']') :
    extractBasePath (String.mk (stem ++ (bodies.map (fun b => '[' :: (b ++ [']']))).flatten)) ++
      extractArraySuffix
        (String.mk (stem ++ (bodies.map (fun b => '[' :: (b ++ [']']))).flatten)) =
      String.mk (stem ++ (bodies.map (fun b => '[' :: (b ++ [']']))).flatten) := by
  unfold extractBasePath extractArraySuffix
  have ht : (String.mk (stem ++ (bodies.map (fun b => '[' :: (b ++ [']']))).flatten)).toList =
      stem ++ (bodies.map (fun b => '[' :: (b ++ [']']))).flatten := rfl
  rw [ht]
  rw [baseGo_append_free stem hstem, suffixGo_append_free stem hstem]
  rw [(extractGo_flatten_groups bodies hbodies).1, (extractGo_flatten_groups bodies hbodies).2]
  have happ : ∀ (a b : List Char), String.mk a ++ String.mk b = String.mk (a ++ b) :=
    fun a b => rfl
  rw [happ]
  simp

/-- Witness for base_suffix_concat_trailing on the path u_sub.data[3][15]. -/
theorem base_suffix_concat_trailing_witness :
    extractBasePath "u_sub.data[3][15]" ++ extractArraySuffix "u_sub.data[3][15]" =
      "u_sub.data[3][15]" := by
  have h := base_suffix_concat_trailing "u_sub.data".toList ["3".toList, "15".toList]
    (by decide) (by decide)
  simpa using h

theorem strJoin_nil : String.join [] = "" := rfl

theorem strAppend_empty (s : String) : s ++ "" = s := by
  cases s with
  | mk d => exact congrArg String.mk (List.append_nil d)

theorem strJoin_cons (s : String) (l : List String) :
    String.join (s :: l) = s ++ String.join l := by
  cases s with
  | mk d =>
    rw [String.join_eq, String.join_eq]
    rfl

theorem strJoin_append (l1 l2 : List String) :
    String.join (l1 ++ l2) = String.join l1 ++ String.join l2 := by
  rw [String.join_eq, String.join_eq, String.join_eq, List.map_append, List.flatten_append]
  rfl

theorem range_drop_one_map (n : Nat) (f : Nat → String) :
    ((List.range n).drop 1).map f = (List.range (n - 1)).map (fun i => f (i + 1)) := by
  cases n with
  | zero => simp
  | succ m =>
    rw [List.range_succ_eq_map]
    simp [List.map_map]

theorem intToStr_ofNat (m : Nat) : toString ((m : Nat) : Int) = toString m := rfl

/-- Claim C9: for every stage count at least 1, the generator output is
exactly the specified line sequence — stage registers _pipe_0 through
_pipe_(stages-1) of the given width, one always block on posedge clock and
the polarity-chosen reset edge, a reset branch clearing every stage to
zero, a shift branch loading stage 0 from the input and stage i from stage
i-1, and the final continuous assignment of the output from the last
stage. -/
theorem generatePipelineRegisters_spec (inputSignal outputSignal : String)
    (bitWidth regCount : Int) (clockName resetName : String) (resetActiveLow : Bool)
    (h : 1 ≤ regCount) :
    generatePipelineRegisters inputSignal outputSignal bitWidth regCount clockName resetName
        resetActiveLow =
      String.join (pipelineSpecLines inputSignal outputSignal bitWidth regCount.toNat
        clockName resetName resetActiveLow) := by
  unfold generatePipelineRegisters pipelineSpecLines
  rw [if_neg (by omega)]
  dsimp only
  rw [range_drop_one_map]
  have h1 : regCount - 1 = ((regCount.toNat - 1 : Nat) : Int) := by omega
  rw [h1, intToStr_ofNat]
  simp only [Nat.add_sub_cancel]
  simp [strJoin_append, strJoin_cons, strJoin_nil, strAppend_empty, String.append_assoc]
  have hlit2 : ("        end\n" : String) ++ "    end\n" = "        end\n    end\n" := by decide
  have hlit : ∀ t : String,
      ("        end\n" : String) ++ ("    end\n" ++ t) = "        end\n    end\n" ++ t := by
    intro t
    rw [← String.append_assoc, hlit2]
  rw [hlit]

/-- Witness for generatePipelineRegisters_spec at two stages of width
eight. -/
theorem generatePipelineRegisters_spec_witness :
    (1 : Int) ≤ 2 ∧
    generatePipelineRegisters "counter" "xp" 8 2 "clk" "rst_n" true =
      String.join (pipelineSpecLines "counter" "xp" 8 (2 : Int).toNat "clk" "rst_n" true) :=
  ⟨by decide, generatePipelineRegisters_spec "counter" "xp" 8 2 "clk" "rst_n" true (by decide)⟩

/-! ## Claim C10: idempotence of the second pass with retained state -/

theorem applyConns_state_mono (p i : String) :
    ∀ (l : List ConnectionChange) (conns : List (String × String)) (st : List String),
      st ⊆ (applyConns p i l conns st).2 := by
  intro l
  induction l with
  | nil => intro conns st; exact List.Subset.refl st
  | cons c rest ih =>
    intro conns st
    by_cases h : mkConnKey p i c.portName ∈ st
    · simp only [applyConns, if_pos h]
      exact ih conns st
    · simp only [applyConns, if_neg h]
      exact fun x hx => ih _ _ (List.mem_cons_of_mem _ hx)

theorem applyConns_keys_mem (p i : String) :
    ∀ (l : List ConnectionChange) (conns : List (String × String)) (st : List String),
      ∀ c ∈ l, mkConnKey p i c.portName ∈ (applyConns p i l conns st).2 := by
  intro l
  induction l with
  | nil => intro conns st c hc; exact absurd hc (List.not_mem_nil c)
  | cons c rest ih =>
    intro conns st d hd
    by_cases h : mkConnKey p i c.portName ∈ st
    · simp only [applyConns, if_pos h]
      rcases List.mem_cons.mp hd with heq | hmem
      · subst heq; exact applyConns_state_mono p i rest conns st h
      · exact ih conns st d hmem
    · simp only [applyConns, if_neg h]
      rcases List.mem_cons.mp hd with heq | hmem
      · subst heq
        exact applyConns_state_mono p i rest _ _ (List.mem_cons_self _ _)
      · exact ih _ _ d hmem

theorem applyConns_noop (p i : String) :
    ∀ (l : List ConnectionChange) (conns : List (String × String)) (st : List String),
      (∀ c ∈ l, mkConnKey p i c.portName ∈ st) →
      applyConns p i l conns st = (conns, st) := by
  intro l
  induction l with
  | nil => intro conns st h; rfl
  | cons c rest ih =>
    intro conns st h
    simp only [applyConns, if_pos (h c (List.mem_cons_self c rest))]
    exact ih conns st (fun d hd => h d (List.mem_cons_of_mem c hd))

theorem processInsts_state_mono (cs : List ConnectionChange) (p t : String) :
    ∀ (l : List InstDeclSyn) (st : List String), st ⊆ (processInsts cs p t st l).2 := by
  intro l
  induction l with
  | nil => intro st; exact List.Subset.refl st
  | cons inst rest ih =>
    intro st
    exact fun x hx => ih (applyConns p inst.name (groupFor cs p t inst.name) inst.conns st).2
      (applyConns_state_mono p inst.name (groupFor cs p t inst.name) inst.conns st hx)

theorem processInsts_covered (cs : List ConnectionChange) (p t : String) :
    ∀ (l : List InstDeclSyn) (st S : List String),
      (processInsts cs p t st l).2 ⊆ S →
      processInsts cs p t S (processInsts cs p t st l).1 = ((processInsts cs p t st l).1, S) := by
  intro l
  induction l with
  | nil => intro st S hS; rfl
  | cons inst rest ih =>
    intro st S hS
    have ha : applyConns p inst.name (groupFor cs p t inst.name)
        (applyConns p inst.name (groupFor cs p t inst.name) inst.conns st).1 S =
        ((applyConns p inst.name (groupFor cs p t inst.name) inst.conns st).1, S) := by
      refine applyConns_noop p inst.name _ _ S (fun c hc => hS ?_)
      exact processInsts_state_mono cs p t rest
        (applyConns p inst.name (groupFor cs p t inst.name) inst.conns st).2
        (applyConns_keys_mem p inst.name (groupFor cs p t inst.name) inst.conns st c hc)
    have hrest := ih (applyConns p inst.name (groupFor cs p t inst.name) inst.conns st).2 S hS
    simp only [processInsts, ha, hrest]

theorem processHiers_state_mono (cs : List ConnectionChange) (p : String) :
    ∀ (hl : List HierInstSyn) (st : List String), st ⊆ (processHiers cs p st hl).2 := by
  intro hl
  induction hl with
  | nil => intro st; exact List.Subset.refl st
  | cons h rest ih =>
    intro st
    exact fun x hx => ih (processInsts cs p h.typeName st h.insts).2
      (processInsts_state_mono cs p h.typeName h.insts st hx)

theorem processHiers_covered (cs : List ConnectionChange) (p : String) :
    ∀ (hl : List HierInstSyn) (st S : List String),
      (processHiers cs p st hl).2 ⊆ S →
      processHiers cs p S (processHiers cs p st hl).1 = ((processHiers cs p st hl).1, S) := by
  intro hl
  induction hl with
  | nil => intro st S hS; rfl
  | cons h rest ih =>
    intro st S hS
    have hr : processInsts cs p h.typeName S (processInsts cs p h.typeName st h.insts).1 =
        ((processInsts cs p h.typeName st h.insts).1, S) := by
      refine processInsts_covered cs p h.typeName h.insts st S (fun x hx => hS ?_)
      exact processHiers_state_mono cs p rest (processInsts cs p h.typeName st h.insts).2 hx
    have hrest := ih (processInsts cs p h.typeName st h.insts).2 S hS
    simp only [processHiers, hr, hrest]

theorem xmrRewriterSecond_state_mono (cs : List ConnectionChange) :
    ∀ (tree : List ModuleDeclSyn) (st : List String), st ⊆ (xmrRewriterSecond cs st tree).2 := by
  intro tree
  induction tree with
  | nil => intro st; exact List.Subset.refl st
  | cons m rest ih =>
    intro st
    exact fun x hx => ih (processHiers cs m.name st m.hinsts).2
      (processHiers_state_mono cs m.name m.hinsts st hx)

theorem xmrRewriterSecond_covered (cs : List ConnectionChange) :
    ∀ (tree : List ModuleDeclSyn) (st S : List String),
      (xmrRewriterSecond cs st tree).2 ⊆ S →
      xmrRewriterSecond cs S (xmrRewriterSecond cs st tree).1 =
        ((xmrRewriterSecond cs st tree).1, S) := by
  intro tree
  induction tree with
  | nil => intro st S hS; rfl
  | cons m rest ih =>
    intro st S hS
    have hr : processHiers cs m.name S (processHiers cs m.name st m.hinsts).1 =
        ((processHiers cs m.name st m.hinsts).1, S) := by
      refine processHiers_covered cs m.name m.hinsts st S (fun x hx => hS ?_)
      exact xmrRewriterSecond_state_mono cs rest (processHiers cs m.name st m.hinsts).2 hx
    have hrest := ih (processHiers cs m.name st m.hinsts).2 S hS
    simp only [xmrRewriterSecond, hr, hrest]

/-- Claim C10 (amended): the second rewriter pass is idempotent when the
rewriter keeps its processedConnections set between traversals — running a
traversal again on the tree the first traversal produced, starting from the
state the first traversal ended with, changes neither the tree nor the
state. With a fresh rewriter (empty set) per run, as the claim literally
describes and as xmrEliminate constructs per syntax tree, a rerun can
duplicate connections, so the claim holds only with the state retained. -/
theorem pass2_idempotent_with_state (cs : List ConnectionChange) (st : List String)
    (tree : List ModuleDeclSyn) :
    xmrRewriterSecond cs (xmrRewriterSecond cs st tree).2 (xmrRewriterSecond cs st tree).1 =
      xmrRewriterSecond cs st tree := by
  have h := xmrRewriterSecond_covered cs tree st (xmrRewriterSecond cs st tree).2
    (List.Subset.refl _)
  rw [h]
